import Mathlib

/-!
Verification of the lilio calendar/resampling engine (AI4S2S/lilio).

This file gives a shallow embedding of the parts of `lilio/calendar.py`,
`lilio/utils.py`, `lilio/resampling.py` and `lilio/calendar_shifter.py` that the
checked claims are about, and proves or refutes each claim against that
embedding.

Modeling conventions:
* Timestamps (`pd.Timestamp`) are whole-day numbers (all interval boundaries in
  this system are midnight date stamps): `civilToRd y m d` is the day count
  from 0001-01-01.
* A `pd.Interval(left, right, closed="left")` is the pair `(left, right)`.
* The unbounded `while` loops of the source (`_get_skip_nyears`, the `min_year`
  loop of `_set_year_range_from_timestamps`) are given explicit fuel; in the
  source they either exit or walk a year counter outside pandas' representable
  Timestamp range and raise, which the fuel-exhaustion `none` stands for.
* Python `float` NaN results (mean of an empty slice) are `Option` `none`.
* Calendars are embedded with a month-day ("MM-DD" / "MM") anchor, the form
  exercised by the claims.
-/

/-- Leap-year test for the proleptic Gregorian calendar used by pandas. -/
def isLeap (y : Int) : Bool :=
  (y % 4 == 0 && y % 100 != 0) || (y % 400 == 0)

/-- Number of days in month `m` (1..12) of a (non-)leap year. -/
def monthDays (leap : Bool) (m : Nat) : Nat :=
  match m with
  | 1 => 31 | 2 => if leap then 29 else 28 | 3 => 31 | 4 => 30 | 5 => 31 | 6 => 30
  | 7 => 31 | 8 => 31 | 9 => 30 | 10 => 31 | 11 => 30 | 12 => 31 | _ => 0

/-- Days of the year strictly before month `m` (1..12). -/
def daysBeforeMonth (leap : Bool) : Nat → Nat
  | 0 => 0
  | 1 => 0
  | m + 1 => daysBeforeMonth leap m + monthDays leap m

/-- Days from 0001-01-01 (day 0) up to the start of year `y`. -/
def daysBeforeYear (y : Int) : Int :=
  365 * (y - 1) + (y - 1) / 4 - (y - 1) / 100 + (y - 1) / 400

/-- Day number of the civil date y-m-d, with 0001-01-01 as day 0. This is the
model of a midnight `pd.Timestamp`. -/
def civilToRd (y : Int) (m d : Nat) : Int :=
  daysBeforeYear y + (daysBeforeMonth (isLeap y) m : Int) + (d : Int) - 1

/-- Civil date of a day number (Hinnant's civil-from-days algorithm, shifted to
the 0001-01-01 epoch). -/
def rdToCivil (rd : Int) : Int × Nat × Nat :=
  let z := rd + 306
  let era := z / 146097
  let doe := z - era * 146097
  let yoe := (doe - doe / 1460 + doe / 36524 - doe / 146096) / 365
  let y := yoe + era * 400
  let doy := doe - (365 * yoe + yoe / 4 - yoe / 100)
  let mp := (5 * doy + 2) / 153
  let d := doy - (153 * mp + 2) / 5 + 1
  let m := if mp < 10 then mp + 3 else mp - 9
  (y + (if m ≤ 2 then 1 else 0), m.toNat, d.toNat)

/-- Year component of a (day-number) timestamp, i.e. `pd.Timestamp.year`. -/
def tsYear (t : Int) : Int := (rdToCivil t).1

/-- Model of `pd.DateOffset(days=..., weeks=..., months=...)`. -/
structure DOffset where
  days : Int := 0
  weeks : Int := 0
  months : Int := 0
deriving Repr, DecidableEq

/-- Month shift with end-of-month day clamping, the `pd.DateOffset(months=m)`
semantics. Shifting by zero months is the identity (the clamp cannot move the
day of a valid date within its own month). -/
def addMonths (t : Int) (m : Int) : Int :=
  if m = 0 then t
  else
    let c := rdToCivil t
    let tot := c.1 * 12 + (c.2.1 : Int) - 1 + m
    let y2 := tot / 12
    let mo2 := (tot % 12).toNat + 1
    let d2 := min c.2.2 (monthDays (isLeap y2) mo2)
    civilToRd y2 mo2 d2

/-- Model of `timestamp + offset`: pandas applies the month component first
(relativedelta-style), then the day/week components as a timedelta. -/
def applyOffset (t : Int) (o : DOffset) : Int :=
  addMonths t o.months + o.days + 7 * o.weeks

/-- Model of `timestamp - offset`: pandas negates every component and adds. -/
def applyOffsetNeg (t : Int) (o : DOffset) : Int :=
  addMonths t (-o.months) - o.days - 7 * o.weeks

/-- One target/precursor building block of `lilio.Interval`: its `gap` and
`length`, stored as the parsed `pd.DateOffset`s (the source keeps both the raw
string/dict and the parsed `_gap_dateoffset`/`_length_dateoffset`; interval
generation only reads the parsed form, which is what this carries). -/
structure IvC where
  gap : DOffset
  length : DOffset
deriving Repr, DecidableEq

/-- Embedding of `lilio.Calendar` with an "MM-DD"/"MM" anchor already parsed
into (month, day) exactly as `pd.to_datetime(f"{year}-{anchor}")` resolves it
(a bare month anchor resolves to day 1). -/
structure CalendarC where
  anchorMonth : Nat
  anchorDay : Nat
  allowOverlap : Bool
  targets : List IvC
  precursors : List IvC
deriving Repr, DecidableEq

/-- Mirror of `Calendar._get_anchor`: anchor timestamp of an anchor year. -/
def _get_anchor (c : CalendarC) (y : Int) : Int :=
  civilToRd y c.anchorMonth c.anchorDay

/-- Target branch of `Calendar._concatenate_periods`: walk forward from
`left_date`; for each block advance by its `gap`, close `length` later, and
continue from the close. -/
def concatTargetsFrom (left : Int) : List IvC → List (Int × Int)
  | [] => []
  | b :: bs =>
    let l := applyOffset left b.gap
    let r := applyOffset l b.length
    (l, r) :: concatTargetsFrom r bs

/-- Precursor branch of `Calendar._concatenate_periods`: walk backward from
`right_date`; for each block retreat by its `gap`, open `length` earlier, and
continue from the open. -/
def concatPrecursorsFrom (right : Int) : List IvC → List (Int × Int)
  | [] => []
  | b :: bs =>
    let r := applyOffsetNeg right b.gap
    let l := applyOffsetNeg r b.length
    (l, r) :: concatPrecursorsFrom l bs

/-- Mirror of `Calendar._map_year`: the pandas Series of one anchor year's
concrete intervals in iloc order, i.e. `(precursors_reversed ++ targets)`
reversed, so the latest interval sits at iloc position 0. Every entry is the
(left, right) pair of a `pd.Interval(..., closed="left")`. -/
def _map_year (c : CalendarC) (y : Int) : List (Int × Int) :=
  ((concatPrecursorsFrom (_get_anchor c y) c.precursors).reverse ++
    concatTargetsFrom (_get_anchor c y) c.targets).reverse

/-- Start point computed by `Calendar._get_skip_nyears`: the anchor of the
synthetic proto-year 2000 moved back over every precursor gap and length. -/
def startCalendar (c : CalendarC) : Int :=
  c.precursors.foldl (fun s b => applyOffsetNeg (applyOffsetNeg s b.gap) b.length)
    (_get_anchor c 2000)

/-- End point of the shifted previous proto calendar in
`Calendar._get_skip_nyears`: the anchor of year `2000 - 1 - skip` advanced over
every target gap and length. -/
def prevEndCalendar (c : CalendarC) (skip : Nat) : Int :=
  c.targets.foldl (fun s b => applyOffset (applyOffset s b.gap) b.length)
    (_get_anchor c (2000 - 1 - (skip : Int)))

/-- Fueled form of the `while True` loop of `Calendar._get_skip_nyears`. -/
def skipLoopFuel (c : CalendarC) (start : Int) : Nat → Nat → Option Nat
  | 0, _ => none
  | fuel + 1, skip =>
    if prevEndCalendar c skip > start then skipLoopFuel c start fuel (skip + 1)
    else some skip

/-- Mirror of `Calendar._get_skip_nyears`: 0 when overlap is allowed, otherwise
the first skip count for which the previous proto year's target end does not
pass the current proto year's earliest precursor start. -/
def _get_skip_nyears (c : CalendarC) : Option Nat :=
  if c.allowOverlap then some 0
  else skipLoopFuel c (startCalendar c) 10000 0

/-- Structural worker for `pyRangeDown`. The fuel `(start - stop).toNat` always
suffices because every step decreases `start` by at least one; the lemma
`pyRangeDown_unfold` below proves the resulting function satisfies exactly the
count-down-while-above-`stop` recurrence of Python's `range`. -/
def pyRangeDownGo (stop : Int) (skip : Nat) : Nat → Int → List Int
  | 0, _ => []
  | fuel + 1, start =>
    if start > stop then start :: pyRangeDownGo stop skip fuel (start - ((skip : Int) + 1))
    else []

/-- Python's `range(start, stop, -(skip+1))`: count down from `start` while
strictly above `stop`. -/
def pyRangeDown (start stop : Int) (skip : Nat) : List Int :=
  pyRangeDownGo stop skip (start - stop).toNat start

/-- Column label assigned by `Calendar._rename_intervals` to Series position
`i` when there are `m` targets: `n_targets - i` for positions below
`n_targets`, `n_targets - i - 1` for the precursor positions after them. -/
def seriesRowLabel (m : Nat) (i : Nat) : Int :=
  if i < m then (m : Int) - i else (m : Int) - i - 1

/-- Attachment of the `_rename_intervals` labels to the Series positions of
one anchor-year row, starting at position `i`. -/
def labelRow (m : Nat) (i : Nat) : List (Int × Int) → List (Int × (Int × Int))
  | [] => []
  | iv :: ivs => (seriesRowLabel m i, iv) :: labelRow m (i + 1) ivs

/-- Insertion into a sorted list, helper of `isortBy`. -/
def insertIn (r : α → α → Bool) (a : α) : List α → List α
  | [] => [a]
  | b :: bs => if r a b then a :: b :: bs else b :: insertIn r a bs

/-- Insertion sort; models pandas' `sort_index`, a stable sort by index. -/
def isortBy (r : α → α → Bool) : List α → List α
  | [] => []
  | a :: l => insertIn r a (isortBy r l)

/-- Mirror of `Calendar._rename_intervals` on one anchor-year row: label every
Series position, then sort the columns ascending by label. -/
def _rename_intervals (m : Nat) (row : List (Int × Int)) : List (Int × (Int × Int)) :=
  isortBy (fun p q => decide (p.1 ≤ q.1)) (labelRow m 0 row)

/-- Mirror of `Calendar.get_intervals` under a `map_years(first, last)` mapping:
realize the year range `range(last, first - 1, -(skip + 1))`, label and
column-sort each row, and sort the rows by anchor year descending
(`sort_index(axis=0, ascending=False)`). The result is `none` only on skip-loop
fuel exhaustion. -/
def get_intervals (c : CalendarC) (first last : Int) :
    Option (List (Int × List (Int × (Int × Int)))) :=
  (_get_skip_nyears c).map fun k =>
    isortBy (fun p q => decide (q.1 ≤ p.1))
      ((pyRangeDown last (first - 1) k).map fun y =>
        (y, _rename_intervals c.targets.length (_map_year c y)))

/-- Right edge of `_map_year(year).iloc[0]`, the latest interval of the year
(used by the `max_year` check of `_set_year_range_from_timestamps`). -/
def rightBoundary (c : CalendarC) (y : Int) : Option Int :=
  ((_map_year c y).head?).map (fun p => p.2)

/-- Right edge of `_map_year(year).iloc[-1]`, the earliest interval of the year
(used by the `min_year` loop of `_set_year_range_from_timestamps`). -/
def leftmostRight (c : CalendarC) (y : Int) : Option Int :=
  ((_map_year c y).getLast?).map (fun p => p.2)

/-- Fueled form of the `while` loop that raises `min_year` in
`Calendar._set_year_range_from_timestamps`. -/
def minLoopFuel (c : CalendarC) (firstTs : Int) : Nat → Int → Option Int
  | 0, _ => none
  | fuel + 1, y =>
    match leftmostRight c y with
    | none => none
    | some lr => if lr ≤ firstTs then minLoopFuel c firstTs fuel (y + 1) else some y

/-- Mirror of `Calendar._set_year_range_from_timestamps`: resolve the concrete
year range from the data's first and last timestamps. The `max_year` check is a
single `if` (one decrement at most); `.error ()` models the
"input data could not cover the target advent calendar" ValueError. -/
def _set_year_range_from_timestamps (c : CalendarC) (firstTs lastTs : Int) :
    Option (Except Unit (Int × Int)) := do
  let rb ← rightBoundary c (tsYear lastTs)
  let maxY := if rb > lastTs then tsYear lastTs - 1 else tsYear lastTs
  let minY ← minLoopFuel c firstTs 10000 (tsYear firstTs)
  some (if maxY ≥ minY then .ok (minY, maxY) else .error ())

/-- Decidable equality for `Except` results (used to state concrete outcomes
of the fallible operations). -/
instance {e a : Type} [DecidableEq e] [DecidableEq a] : DecidableEq (Except e a) := fun x y =>
  match x, y with
  | .ok u, .ok v =>
    if h : u = v then .isTrue (congrArg Except.ok h)
    else .isFalse (fun hc => h (Except.ok.inj hc))
  | .ok _, .error _ => .isFalse (fun hc => Except.noConfusion hc)
  | .error _, .ok _ => .isFalse (fun hc => Except.noConfusion hc)
  | .error u, .error v =>
    if h : u = v then .isTrue (congrArg Except.error h)
    else .isFalse (fun hc => h (Except.error.inj hc))

/-!
Frequency checking (`lilio/utils.py`: `get_smallest_calendar_freq`,
`check_input_frequency`, `replace_month_length`, `MONTH_LENGTH`).
-/

/-- Unit letter of a lilio frequency string `"<n>d" | "<n>W" | "<n>M"`. -/
inductive LUnit | d | W | M
deriving DecidableEq, Repr

/-- A parsed lilio frequency string: count and unit (`"10d"`, `"2W"`, `"3M"`). -/
structure FreqLen where
  n : Int
  u : LUnit
deriving DecidableEq, Repr

/-- Month length used for Timedelta comparisons (`utils.MONTH_LENGTH`). -/
def MONTH_LENGTH : Int := 30

/-- Timedelta (in days) that `get_smallest_calendar_freq` derives from one raw
length string: the `replace("-", "")` strips the sign (absolute value), months
are replaced by `MONTH_LENGTH` days (`replace_month_length`), and
`pd.Timedelta` counts a week as 7 days. -/
def lenToTimedeltaDays (f : FreqLen) : Int :=
  match f.u with
  | .d => |f.n|
  | .W => 7 * |f.n|
  | .M => MONTH_LENGTH * |f.n|

/-- Mirror of `utils.get_smallest_calendar_freq` over the raw length strings of
`calendar.targets + calendar.precursors`; `none` models Python's `min([])`
TypeError on a calendar without intervals. -/
def get_smallest_calendar_freq (lengths : List FreqLen) : Option Int :=
  (lengths.map lenToTimedeltaDays).min?

/-- Outcome of `utils.check_input_frequency`: the hard
"data is of a lower time resolution than the calendar" ValueError, the
non-fatal "very close to the Calendar's frequency" warning, or a silent pass. -/
inductive FreqCheck | tooCoarse | warnClose | passOk
deriving DecidableEq, Repr

/-- Mirror of `utils.check_input_frequency`, over the calendar's raw interval
length strings and the already-inferred data frequency (in days):
raise when `calendar_freq < data_freq`, else warn when
`calendar_freq < 2 * data_freq`, else pass silently. -/
def check_input_frequency (lengths : List FreqLen) (dataFreq : Int) : Option FreqCheck :=
  (get_smallest_calendar_freq lengths).map fun cf =>
    if cf < dataFreq then .tooCoarse
    else if cf < 2 * dataFreq then .warnClose
    else .passOk

/-!
Reserved-name checking (`lilio/utils.py`: `check_reserved_names`).
-/

/-- Reserved output names checked for pandas input. -/
def reserved_names_pd : List String := ["anchor_year", "i_interval", "is_target"]

/-- Reserved output names checked for xarray input. -/
def reserved_names_xr : List String := reserved_names_pd ++ ["left_bound", "right_bound"]

/-- Shape-tagged model of the `resample` input: a pandas Series (optional
name), a pandas DataFrame (column names), an xarray DataArray (coordinate
names plus its own name) or an xarray Dataset (data-variable names). -/
inductive InputData
  | series (name : Option String)
  | dataframe (columns : List String)
  | dataArray (coords : List String) (name : String)
  | dataset (varNames : List String)
deriving DecidableEq, Repr

/-- Python `==` between a `str` and a list-like value is always `False`. In the
source's xarray branch `data_names` is the SINGLE-element list
`[input_data.keys()]` (resp. `[list(coords) + [name]]`), so the membership
test `name in data_names` compares each reserved-name string against that one
list-like element. -/
def strEqPyList : String → List String → Bool := fun _ _ => false

/-- Mirror of `utils.check_reserved_names`. The pandas-DataFrame branch tests
the reserved names against the columns; the xarray branch tests them against
the single-element `data_names` list described at `strEqPyList`; Series input
matches neither `isinstance` branch and is not checked at all. -/
def check_reserved_names (d : InputData) : Except String Unit :=
  match d with
  | .series _ => .ok ()
  | .dataframe cols =>
    if reserved_names_pd.any (fun n => cols.contains n)
    then .error "input data contains one or more reserved names" else .ok ()
  | .dataArray coords name =>
    let data_names : List (List String) := [coords ++ [name]]
    if reserved_names_xr.any (fun n => data_names.any (fun e => strEqPyList n e))
    then .error "input data contains one or more reserved names" else .ok ()
  | .dataset varNames =>
    let data_names : List (List String) := [varNames]
    if reserved_names_xr.any (fun n => data_names.any (fun e => strEqPyList n e))
    then .error "input data contains one or more reserved names" else .ok ()

/-!
Empty-interval checking and the pandas resampling loop
(`lilio/utils.py`: `check_empty_intervals`; `lilio/resampling.py`:
`_resample_bins_constructor`, `_contains`, `_resample_pandas`, `resample`).
-/

/-- Mirror of `utils.check_empty_intervals`, abstracted over the Python
`len()` of each item its argument yields when iterated: warn "single data
point" when any item has length 1, else warn "could not fully cover" when any
item has length 0, else stay silent (`none`). -/
def check_empty_intervals (lens : List Nat) : Option String :=
  if lens.any (fun l => l == 1) then some "single data point"
  else if lens.any (fun l => l == 0) then some "not fully covered"
  else none

/-- The actual post-resampling call `utils.check_empty_intervals(resampled_data)`
in `resample`: iterating the resampled DataFrame yields its COLUMN NAMES
(`anchor_year`, `i_interval`, `interval`, then the data columns; `is_target`
is only added afterwards), so the lengths reaching `check_empty_intervals`
are the string lengths of those names. -/
def resample_post_check (dataColumns : List String) : Option String :=
  check_empty_intervals
    ((["anchor_year", "i_interval", "interval"] ++ dataColumns).map String.length)

/-- Mirror of `_resample_bins_constructor`: melt the interval table into tidy
`(anchor_year, i_interval, interval)` rows and sort by anchor year then
interval index, both ascending. -/
def _resample_bins_constructor (tbl : List (Int × List (Int × (Int × Int)))) :
    List (Int × Int × (Int × Int)) :=
  isortBy (fun p q => decide (p.1 < q.1) || (decide (p.1 = q.1) && decide (p.2.1 ≤ q.2.1)))
    (tbl.flatMap fun r => r.2.map fun p => (r.1, p.1, p.2))

/-- Per-bin count of contained timestamps, using the half-open
`left-closed/right-open` membership of `_contains` (the rows of the
containment matrix summed). -/
def interval_sample_counts (bins : List (Int × Int × (Int × Int))) (timeIdx : List Int) :
    List Nat :=
  bins.map fun b =>
    (timeIdx.filter (fun t => decide (b.2.2.1 ≤ t) && decide (t < b.2.2.2))).length

/-- Model of `np.mean` over the selected values of one bin: the mean of an
empty slice is NaN, modeled as `none`. -/
def np_mean (vs : List ℚ) : Option ℚ :=
  if vs.length = 0 then none else some (vs.sum / (vs.length : ℚ))

/-- Per-bin `how="mean"` aggregation of `_resample_pandas`: select the data
points whose timestamp the bin contains and reduce them with `np_mean`. -/
def resample_mean_values (bins : List (Int × Int × (Int × Int)))
    (pts : List (Int × ℚ)) : List (Option ℚ) :=
  bins.map fun b =>
    np_mean ((pts.filter (fun p => decide (b.2.2.1 ≤ p.1) && decide (p.1 < b.2.2.2))).map
      Prod.snd)

/-!
Anchor parsing (`Calendar._parse_anchor`, `utils.check_month_day`,
`utils.check_week_day`, `utils.get_month_names`).
-/

/-- Split a character list at the first occurrence of `c` (the effect of
Python's `split("-")` when at most one dash is present). -/
def splitOnce (c : Char) : List Char → Option (List Char × List Char)
  | [] => none
  | x :: xs =>
    if x = c then some ([], xs)
    else (splitOnce c xs).map fun p => (x :: p.1, p.2)

/-- Test for the regex `\d{1,2}`: one or two characters, all digits. -/
def isDigits12 (l : List Char) : Bool :=
  (l.length == 1 || l.length == 2) && l.all (fun ch => ch.isDigit)

/-- Python `int()` on a (nonempty, already digit-checked) string. -/
def digitsToNat (l : List Char) : Nat :=
  l.foldl (fun acc ch => acc * 10 + (ch.toNat - 48)) 0

/-- Full match of `\d{1,2}-\d{1,2}`. -/
def matchMMDD (cs : List Char) : Bool :=
  match splitOnce '-' cs with
  | some (a, b) => isDigits12 a && isDigits12 b
  | none => false

/-- Full match of `\d{1,2}`. -/
def matchMM (cs : List Char) : Bool := isDigits12 cs

/-- Full match of `W\d{1,2}-\d`: leading 'W', then the rest (Python's
`anchor_str[1:]`) splits at a dash into a 1-2 digit week and 1 digit day. -/
def matchWD (cs : List Char) : Bool :=
  cs.head? == some 'W' &&
    (match splitOnce '-' (cs.drop 1) with
     | some (w, dd) => isDigits12 w && (dd.length == 1 && dd.all (fun ch => ch.isDigit))
     | none => false)

/-- Full match of `W\d{1,2}`: leading 'W', then 1-2 digits. -/
def matchW (cs : List Char) : Bool :=
  cs.head? == some 'W' && isDigits12 (cs.drop 1)

/-- Mirror of `utils.check_month_day`: months 1..12, day capped at 31/30/28
depending on the month (February always 28). -/
def check_month_day (month : Nat) (day : Nat) : Except String Unit :=
  if month = 1 ∨ month = 3 ∨ month = 5 ∨ month = 7 ∨ month = 8 ∨ month = 10 ∨ month = 12 then
    if day < 1 ∨ day > 31 then .error "invalid day" else .ok ()
  else if month = 4 ∨ month = 6 ∨ month = 9 ∨ month = 11 then
    if day < 1 ∨ day > 30 then .error "invalid day" else .ok ()
  else if month = 2 then
    if day < 1 ∨ day > 28 then .error "invalid day" else .ok ()
  else .error "invalid month"

/-- Mirror of `utils.check_week_day`: week 53 rejected, weeks 1..52, weekday
1..7. -/
def check_week_day (week : Nat) (day : Nat) : Except String Unit :=
  if week = 53 then .error "week 53 is not valid"
  else if week < 1 ∨ week > 52 then .error "invalid week"
  else if day < 1 ∨ day > 7 then .error "invalid weekday"
  else .ok ()

/-- Mirror of `utils.get_month_names`: lowercase English month names and
abbreviations with their month numbers. -/
def get_month_names : List (String × Nat) :=
  [("january", 1), ("february", 2), ("march", 3), ("april", 4), ("may", 5),
   ("june", 6), ("july", 7), ("august", 8), ("september", 9), ("october", 10),
   ("november", 11), ("december", 12),
   ("jan", 1), ("feb", 2), ("mar", 3), ("apr", 4), ("jun", 6), ("jul", 7),
   ("aug", 8), ("sep", 9), ("oct", 10), ("nov", 11), ("dec", 12)]

/-- Dictionary lookup of a lowercased anchor string among the month names. -/
def month_name_lookup : List (String × Nat) → List Char → Option Nat
  | [], _ => none
  | (k, v) :: rest, cs => if k.data = cs then some v else month_name_lookup rest cs

/-- Lowercase a character list (Python `str.lower()` on ASCII input). -/
def lowerChars (cs : List Char) : List Char := cs.map Char.toLower

/-- Python `str()` of a natural number below 100 (month numbers are 1..12). -/
def numToChars (n : Nat) : List Char :=
  if n < 10 then [Char.ofNat (48 + n)]
  else [Char.ofNat (48 + n / 10), Char.ofNat (48 + n % 10)]

/-- Mirror of `Calendar._parse_anchor`: try the grammars in source order
(`MM-DD`, `MM`, `Wnn-D`, `Wnn` with weekday defaulted by appending "-1",
month name converted to its number), first match wins, range validation
failures and unrecognized input raise. Returns the canonical anchor string
(as characters) and the strptime format code. -/
def _parse_anchor (cs : List Char) : Except String (List Char × String) :=
  if matchMMDD cs then
    match splitOnce '-' cs with
    | some (a, b) =>
      (check_month_day (digitsToNat a) (digitsToNat b)).map fun _ => (cs, "%m-%d")
    | none => .error "impossible"
  else if matchMM cs then
    (check_month_day (digitsToNat cs) 1).map fun _ => (cs, "%m")
  else if matchWD cs then
    match splitOnce '-' (cs.drop 1) with
    | some (w, dd) =>
      (check_week_day (digitsToNat w) (digitsToNat dd)).map fun _ => (cs, "W%W-%w")
    | none => .error "impossible"
  else if matchW cs then
    (check_week_day (digitsToNat (cs.drop 1)) 1).map fun _ => (cs ++ ['-', '1'], "W%W-%w")
  else
    match month_name_lookup get_month_names (lowerChars cs) with
    | some n => .ok (numToChars n, "%m")
    | none => .error "anchor input does not match expected format"

/-!
Calendar shifting (`lilio/calendar_shifter.py`: `_gap_shift`,
`calendar_shifter`, `staggered_calendar`) with the Python in-place mutation of
a dict-valued `shift` made explicit by threading the post-call state of the
shift argument through every call.
-/

/-- Role of a lilio `Interval`. -/
inductive IvRole | target | precursor
deriving DecidableEq, Repr

/-- Python dict with (at most) the `pd.DateOffset` keys `days`, `weeks`,
`months`; a `none` field is an absent key. -/
structure PyDict where
  days : Option Int := none
  weeks : Option Int := none
  months : Option Int := none
deriving DecidableEq, Repr

/-- Mirror of `utils.parse_freqstr_to_dateoffset`: a frequency string parses
to a single-key dict. -/
def parse_freqstr_to_dateoffset (f : FreqLen) : PyDict :=
  match f.u with
  | .d => { days := some f.n }
  | .W => { weeks := some f.n }
  | .M => { months := some f.n }

/-- The `str | dict` value stored in `Interval.gap` / passed as `shift`. -/
inductive GapVal
  | str (f : FreqLen)
  | dict (d : PyDict)
deriving DecidableEq, Repr

/-- Normalization step at the top of `_gap_shift`: parse a string, keep (and
alias) a dict. -/
def toDict : GapVal → PyDict
  | .str f => parse_freqstr_to_dateoffset f
  | .dict d => d

/-- Negation of a present dict value (the `value * -1` update). -/
def negPyField : Option Int → Option Int
  | none => none
  | some v => some (-v)

/-- In-place `dict.update((k, v * -1) ...)`: negate every present entry. -/
def negPy (d : PyDict) : PyDict :=
  { days := negPyField d.days, weeks := negPyField d.weeks, months := negPyField d.months }

/-- One component of the merge comprehension
`{k: gap.get(k, 0) + shift.get(k, 0) for k in set(gap) | set(shift)}`:
a key is present in the result iff present in either operand, with absent
values defaulting to 0. -/
def mergeField : Option Int → Option Int → Option Int
  | none, none => none
  | a, b => some (a.getD 0 + b.getD 0)

/-- The merge comprehension of `_gap_shift` over all three offset keys. -/
def mergePy (g s : PyDict) : PyDict :=
  { days := mergeField g.days s.days,
    weeks := mergeField g.weeks s.weeks,
    months := mergeField g.months s.months }

/-- A lilio `Interval` as the shifter sees it: role plus raw length and gap. -/
structure IntervalS where
  role : IvRole
  length : GapVal
  gap : GapVal
deriving DecidableEq, Repr

/-- Mirror of `_gap_shift`. The returned pair is (the new gap dict, the state
of the `shift` argument after the call): for a precursor interval with a
dict-valued shift, the negating `update` mutates the CALLER's dict, so the
post-call state is the negated dict; a string shift is parsed into a fresh
dict and the caller's value is untouched. -/
def _gap_shift (iv : IntervalS) (shift : GapVal) : PyDict × GapVal :=
  let gapD := toDict iv.gap
  match shift with
  | .str f =>
    let sd := parse_freqstr_to_dateoffset f
    let sd2 := if iv.role = .precursor then negPy sd else sd
    (mergePy gapD sd2, .str f)
  | .dict d =>
    let d2 := if iv.role = .precursor then negPy d else d
    (mergePy gapD d2, .dict d2)

/-- Calendar as the shifter sees it: the target and precursor interval lists
(anchor and the other fields are untouched by the shifter's deep copy). -/
structure CalendarS where
  targets : List IntervalS
  precursors : List IntervalS
deriving DecidableEq, Repr

/-- Mirror of `calendar_shifter`: deep-copy the calendar, then overwrite the
gaps of `targets[0]` and (second, on the shift state left by the first call)
`precursors[0]`. Empty interval lists make the source raise IndexError
(`none`). The second component is the state of the caller's `shift` value
after the call. -/
def calendar_shifter (cal : CalendarS) (shift : GapVal) : Option (CalendarS × GapVal) :=
  match cal.targets, cal.precursors with
  | t0 :: ts, p0 :: ps =>
    let r1 := _gap_shift t0 shift
    let r2 := _gap_shift p0 r1.2
    some ({ targets := { t0 with gap := .dict r1.1 } :: ts,
            precursors := { p0 with gap := .dict r2.1 } :: ps }, r2.2)
  | _, _ => none

/-- Loop body of `staggered_calendar`: apply the shifter `n` times, each time
to the previous result and with the CURRENT (possibly mutated) shift value. -/
def staggeredGo : Nat → CalendarS → GapVal → Option (List CalendarS)
  | 0, _, _ => some []
  | k + 1, cur, shift =>
    match calendar_shifter cur shift with
    | none => none
    | some (nxt, s2) => (staggeredGo k nxt s2).map fun rest => nxt :: rest

/-- Mirror of `staggered_calendar`: validate `n_shifts`, then return the
original calendar followed by the `n` successively shifted copies. -/
def staggered_calendar (cal : CalendarS) (shift : GapVal) (nShifts : Int) :
    Except String (List CalendarS) :=
  if nShifts ≤ 0 then .error "the number of shifts has to be 1 or greater"
  else
    match staggeredGo nShifts.toNat cal shift with
    | some rest => .ok (cal :: rest)
    | none => .error "IndexError"

/-- Component view (days, weeks, months; absent keys read as 0) of a gap
value, the sense in which the round-trip claim compares gaps. -/
def comps (g : GapVal) : Int × Int × Int :=
  ((toDict g).days.getD 0, (toDict g).weeks.getD 0, (toDict g).months.getD 0)

/-- Component-wise negation of a shift argument (the "-X" of the round-trip
claim, supplied by the caller as a fresh value). -/
def negGap : GapVal → GapVal
  | .str f => .str { n := -f.n, u := f.u }
  | .dict d => .dict (negPy d)

/-!
Concrete instances used by witnesses and counterexamples.
-/

/-- Shorthand for an interval block whose gap and length are day counts. -/
def dayIv (gapD lenD : Int) : IvC :=
  { gap := { days := gapD }, length := { days := lenD } }

/-- Calendar of the C9 scenario (also reused as a generic small calendar):
anchor "12-31", one 20-day target (gap 0), one 10-day precursor (gap 0). -/
def calC9 : CalendarC :=
  { anchorMonth := 12, anchorDay := 31, allowOverlap := false,
    targets := [dayIv 0 20], precursors := [dayIv 0 10] }

/-- Counterexample calendar for C2: anchor "12-31", one 306-day target and one
60-day precursor; 306 + 60 = 366 exactly fills the leap proto-year span
1999-12-31 → 2000-12-31, so `_get_skip_nyears` returns 0, but a 365-day
span between consecutive realized anchors (2002 → 2003) overlaps. -/
def calC2X : CalendarC :=
  { anchorMonth := 12, anchorDay := 31, allowOverlap := false,
    targets := [dayIv 0 306], precursors := [dayIv 0 60] }

/-- Counterexample calendar for C3: anchor "01-01", one 600-day target whose
right boundary extends more than a year past the anchor, so a single
decrement of `max_year` cannot restore the claimed boundary condition. -/
def calC3X : CalendarC :=
  { anchorMonth := 1, anchorDay := 1, allowOverlap := false,
    targets := [dayIv 0 600], precursors := [dayIv 0 10] }

/-- Daily time index of the C6 scenario: 2021-12-01 .. 2022-01-31. -/
def c6TimeIdx : List Int := (List.range 62).map fun i => civilToRd 2021 12 1 + i

/-- Constant-valued data points over `c6TimeIdx`. -/
def c6Points : List (Int × ℚ) := c6TimeIdx.map fun t => (t, 1)

/-- Shifter-side calendar with one target (gap "0d", length "20d") and one
precursor (gap "0d", length "10d"). -/
def calC10 : CalendarS :=
  { targets := [{ role := .target, length := .str ⟨20, .d⟩, gap := .str ⟨0, .d⟩ }],
    precursors := [{ role := .precursor, length := .str ⟨10, .d⟩, gap := .str ⟨0, .d⟩ }] }

/-- Dict-valued shift argument `{"days": 7}`. -/
def shiftC10 : GapVal := .dict { days := some 7 }

/-- Intermediate calendar after shifting `calC10` by `{"days": 7}`. -/
def c8Mid : CalendarS :=
  { targets := [{ role := .target, length := .str ⟨20, .d⟩,
                  gap := .dict { days := some 7 } }],
    precursors := [{ role := .precursor, length := .str ⟨10, .d⟩,
                     gap := .dict { days := some (-7) } }] }

/-- Calendar after the +7d then -7d round trip on `calC10`. -/
def c8End : CalendarS :=
  { targets := [{ role := .target, length := .str ⟨20, .d⟩,
                  gap := .dict { days := some 0 } }],
    precursors := [{ role := .precursor, length := .str ⟨10, .d⟩,
                     gap := .dict { days := some 0 } }] }

/-- Component-wise sum of two day/week/month triples. -/
def compsAdd (a b : Int × Int × Int) : Int × Int × Int :=
  (a.1 + b.1, a.2.1 + b.2.1, a.2.2 + b.2.2)

/-- Component-wise negation of a day/week/month triple. -/
def compsNeg (a : Int × Int × Int) : Int × Int × Int :=
  (-a.1, -a.2.1, -a.2.2)

/-- Second shifted copy of `calC10` under the string shift "7d". -/
def c10Far : CalendarS :=
  { targets := [{ role := .target, length := .str ⟨20, .d⟩,
                  gap := .dict { days := some 14 } }],
    precursors := [{ role := .precursor, length := .str ⟨10, .d⟩,
                     gap := .dict { days := some (-14) } }] }

/-- Descending run of integers: `descIntsFrom b k = [b, b-1, ..., b-k+1]`. -/
def descIntsFrom (b : Int) : Nat → List Int
  | 0 => []
  | k + 1 => b :: descIntsFrom (b - 1) k

/-- Ascending run of integers: `ascIntsFrom a k = [a, a+1, ..., a+k-1]`. -/
def ascIntsFrom (a : Int) : Nat → List Int
  | 0 => []
  | k + 1 => a :: ascIntsFrom (a + 1) k

/-- Day-equivalent of a pure day/week offset. -/
def dayLen (o : DOffset) : Int := o.days + 7 * o.weeks

/-- Total day span (gaps plus lengths) of a block list with day/week offsets. -/
def sumIvs : List IvC → Int
  | [] => 0
  | b :: bs => dayLen b.gap + dayLen b.length + sumIvs bs

/-- Convenient name for the day/week-only nonnegative block condition. -/
def DayBlocks (bs : List IvC) : Prop :=
  ∀ b ∈ bs, b.gap.months = 0 ∧ b.length.months = 0 ∧
    0 ≤ dayLen b.gap ∧ 0 ≤ dayLen b.length

instance (bs : List IvC) : Decidable (DayBlocks bs) := by
  unfold DayBlocks
  infer_instance

/-- Realized 2004 row of `calC2X`. -/
def c2wRow1 : Int × List (Int × (Int × Int)) :=
  (2004, [(-1, (civilToRd 2004 11 1, civilToRd 2004 12 31)),
          (1, (civilToRd 2004 12 31, civilToRd 2005 11 2))])

/-- Realized 2003 row of `calC2X`. -/
def c2wRow2 : Int × List (Int × (Int × Int)) :=
  (2003, [(-1, (civilToRd 2003 11 1, civilToRd 2003 12 31)),
          (1, (civilToRd 2003 12 31, civilToRd 2004 11 1))])

/-- Interval table of `calC2X` mapped over 2003..2004. -/
def c2wTbl : List (Int × List (Int × (Int × Int))) := [c2wRow1, c2wRow2]

/-- Claim C9 (confirmed): a Calendar with anchor "12-31", one target interval of
length 20 days (gap 0) and one precursor interval of length 10 days (gap 0),
mapped to years 2021 through 2021, produces exactly two concrete intervals: the
precursor [2021-12-21, 2021-12-31) with i_interval -1 and the target
[2021-12-31, 2022-01-20) with i_interval 1 (every interval in this system is
built left-closed/right-open). -/
theorem c9_concrete_scenario :
    get_intervals calC9 2021 2021 =
      some [(2021,
        [(-1, (civilToRd 2021 12 21, civilToRd 2021 12 31)),
         (1, (civilToRd 2021 12 31, civilToRd 2022 1 20))])] := by
  decide

/-- Claim C5 (code bug): an xarray Dataset or DataArray that already defines a
reserved name passes `check_reserved_names` without error, because the source
wraps the name collection in an extra list (`data_names = [input_data.keys()]`)
and a Python string never equals that list-like element; only the
pandas-DataFrame branch actually raises. -/
theorem c5_xarray_reserved_names_unreachable :
    check_reserved_names (.dataset ["anchor_year", "temp"]) = .ok () ∧
    check_reserved_names (.dataArray ["time"] "i_interval") = .ok () ∧
    check_reserved_names (.dataframe ["anchor_year", "temp"]) =
      .error "input data contains one or more reserved names" := by
  decide

/-- Claim C6 (code bug): resampling the constant series over 2021-12-01 ..
2022-01-31 with the calendar `calC9` mapped to 2021..2022 leaves both bins of
anchor year 2022 with zero contributing samples and NaN (`none`) aggregates,
yet the post-resampling call `check_empty_intervals(resampled_data)` iterates
the DataFrame's column names instead of per-bin index arrays and emits no
warning. -/
theorem c6_empty_bins_nan_but_no_warning :
    ((get_intervals calC9 2021 2022).map fun tbl =>
        interval_sample_counts (_resample_bins_constructor tbl) c6TimeIdx) =
      some [10, 20, 0, 0] ∧
    ((get_intervals calC9 2021 2022).map fun tbl =>
        (resample_mean_values (_resample_bins_constructor tbl) c6Points).map
          Option.isSome) =
      some [true, true, false, false] ∧
    resample_post_check ["data1"] = none := by
  decide

/-- Claim C4, counterexample: with a single calendar interval of length "4d"
and an inferred data frequency of exactly 2 days (calendar frequency equal to
exactly twice the sampling period), `check_input_frequency` passes silently —
it does not emit the warning the claim requires at exactly 2x. -/
theorem c4_counterexample :
    lenToTimedeltaDays ⟨4, .d⟩ = 2 * 2 ∧
    check_input_frequency [⟨4, .d⟩] 2 = some .passOk ∧
    some FreqCheck.passOk ≠ some FreqCheck.warnClose := by
  decide

/-- Claim C2, counterexample: for `calC2X` (anchor "12-31", 306-day target,
60-day precursor, allow_overlap=False) `_get_skip_nyears` returns 0 because
the synthetic proto pair 1999→2000 spans 366 days, yet in the mapped output
for 2002..2003 the two consecutively realized anchor years share calendar
time: day 2003-11-01 lies both in the 2002 target [2002-12-31, 2003-11-02)
and in the 2003 precursor [2003-11-01, 2003-12-31). -/
theorem c2_counterexample :
    _get_skip_nyears calC2X = some 0 ∧
    get_intervals calC2X 2002 2003 =
      some [(2003,
              [(-1, (civilToRd 2003 11 1, civilToRd 2003 12 31)),
               (1, (civilToRd 2003 12 31, civilToRd 2004 11 1))]),
            (2002,
              [(-1, (civilToRd 2002 11 1, civilToRd 2002 12 31)),
               (1, (civilToRd 2002 12 31, civilToRd 2003 11 2))])] ∧
    (civilToRd 2002 12 31 ≤ civilToRd 2003 11 1 ∧
       civilToRd 2003 11 1 < civilToRd 2003 11 2) ∧
    (civilToRd 2003 11 1 ≤ civilToRd 2003 11 1 ∧
       civilToRd 2003 11 1 < civilToRd 2003 12 31) := by
  decide

/-- Claim C3, counterexample: for `calC3X` (anchor "01-01", 600-day target)
with data spanning 1998-01-01 .. 2002-06-01, the year-range resolution
decrements `max_year` only once (2002 → 2001) and returns (1999, 2001), even
though the realized calendar for 2001 has its rightmost boundary
2001-01-01 + 600 days = 2002-08-24 past the last timestamp — so the resolved
`last_year` is NOT the largest year whose rightmost boundary fits the data,
contradicting the claimed loop-until-satisfied behavior. -/
theorem c3_counterexample :
    _set_year_range_from_timestamps calC3X (civilToRd 1998 1 1) (civilToRd 2002 6 1) =
      some (.ok (1999, 2001)) ∧
    rightBoundary calC3X 2001 = some (civilToRd 2001 1 1 + 600) ∧
    civilToRd 2002 6 1 < civilToRd 2001 1 1 + 600 ∧
    rightBoundary calC3X 2000 = some (civilToRd 2001 8 23) ∧
    civilToRd 2001 8 23 ≤ civilToRd 2002 6 1 := by
  decide

/-- Claim C10, counterexample: `calendar_shifter` with the dict shift
`{"days": 7}` on a calendar with one precursor leaves the caller's dict
holding `{"days": -7}` (the in-place negation for the precursor), and
`staggered_calendar(cal, {"days": 7}, 2)` therefore oscillates: the first
target gap of the three returned calendars reads (0, 7, 0) days instead of
(0, 7, 14). -/
theorem c10_counterexample :
    (calendar_shifter calC10 shiftC10).map Prod.snd =
      some (.dict { days := some (-7) }) ∧
    (GapVal.dict { days := some (-7) }) ≠ shiftC10 ∧
    (staggered_calendar calC10 shiftC10 2).toOption.map
        (fun l => l.map fun cal => cal.targets.head?.map fun iv => comps iv.gap) =
      some [some ((0 : Int), (0 : Int), (0 : Int)), some (7, 0, 0), some (0, 0, 0)] := by
  decide

/-- Claim C4 as amended: `check_input_frequency` raises `FrequencyTooCoarseError`
exactly when the calendar's smallest interval length is strictly smaller than
the inferred data frequency; it emits the non-fatal aliasing warning exactly
when the calendar frequency is at least the data frequency but strictly
smaller than twice it; and at exactly twice the data frequency (or more) it
succeeds silently, with no warning. -/
theorem c4_amended (lengths : List FreqLen) (df cf : Int) (res : FreqCheck)
    (hdf : 0 < df)
    (hcf : get_smallest_calendar_freq lengths = some cf)
    (hres : check_input_frequency lengths df = some res) :
    (res = .tooCoarse ↔ cf < df) ∧
    (res = .warnClose ↔ df ≤ cf ∧ cf < 2 * df) ∧
    (res = .passOk ↔ 2 * df ≤ cf) := by
  unfold check_input_frequency at hres
  rw [hcf] at hres
  simp only [Option.map_some', Option.some.injEq] at hres
  split_ifs at hres with h1 h2 <;> subst hres <;>
    refine ⟨?_, ?_, ?_⟩ <;> simp <;> omega

/-- Witness for `c4_amended` at the repo's own warning test scenario: one "2d"
interval against 2-day data warns (1x the sampling period). -/
theorem c4_amended_witness :
    get_smallest_calendar_freq [⟨2, .d⟩] = some 2 ∧
    check_input_frequency [⟨2, .d⟩] 2 = some .warnClose ∧
    (0 : Int) < 2 ∧
    ((FreqCheck.warnClose = .tooCoarse ↔ (2 : Int) < 2) ∧
     (FreqCheck.warnClose = .warnClose ↔ (2 : Int) ≤ 2 ∧ (2 : Int) < 2 * 2) ∧
     (FreqCheck.warnClose = .passOk ↔ 2 * 2 ≤ (2 : Int))) :=
  ⟨by decide, by decide, by decide, c4_amended [⟨2, .d⟩] 2 2 .warnClose (by decide) (by decide) (by decide)⟩

/-- Specification of the fueled `min_year` loop: when it returns a year, that
year is at least the starting year, its earliest interval's right edge lies
strictly past the first timestamp, and it is the least such year (every year
from the start up to it has its earliest interval's right edge at or below the
first timestamp). -/
theorem minLoopFuel_spec (c : CalendarC) (fts : Int) :
    ∀ (fuel : Nat) (y0 y : Int), minLoopFuel c fts fuel y0 = some y →
      y0 ≤ y ∧
      (∃ lr, leftmostRight c y = some lr ∧ fts < lr) ∧
      (∀ z, y0 ≤ z → z < y → ∃ lr, leftmostRight c z = some lr ∧ lr ≤ fts) := by
  intro fuel
  induction fuel with
  | zero => intro y0 y h; simp [minLoopFuel] at h
  | succ k ih =>
    intro y0 y h
    rw [minLoopFuel] at h
    cases hlr : leftmostRight c y0 with
    | none => simp only [hlr] at h; exact Option.noConfusion h
    | some lr =>
      simp only [hlr] at h
      by_cases hle : lr ≤ fts
      · rw [if_pos hle] at h
        obtain ⟨h1, h2, h3⟩ := ih (y0 + 1) y h
        refine ⟨by omega, h2, ?_⟩
        intro z hz1 hz2
        rcases eq_or_lt_of_le hz1 with heq | hlt
        · exact ⟨lr, heq ▸ hlr, hle⟩
        · exact h3 z (by omega) hz2
      · rw [if_neg hle] at h
        obtain rfl : y0 = y := by simpa using h
        exact ⟨le_refl _, ⟨lr, hlr, by omega⟩, fun z hz1 hz2 => absurd (lt_of_le_of_lt hz1 hz2) (lt_irrefl _)⟩

/-- Claim C3 as amended: the year-range resolution sets `last_year` to
`last_timestamp.year`, decremented by exactly one when the realized calendar
for that year has its rightmost interval boundary past `last_timestamp`
(a single `if`, not a loop, so no further decrements happen); it sets
`first_year` to the smallest year at or above `first_timestamp.year` whose
earliest interval's right edge lies strictly past `first_timestamp`; and it
raises the insufficient-coverage error exactly when the resolved `max_year`
is smaller than the resolved `min_year`. -/
theorem c3_amended (c : CalendarC) (firstTs lastTs : Int) (r : Except Unit (Int × Int))
    (h : _set_year_range_from_timestamps c firstTs lastTs = some r) :
    ∃ rb minY,
      rightBoundary c (tsYear lastTs) = some rb ∧
      minLoopFuel c firstTs 10000 (tsYear firstTs) = some minY ∧
      tsYear firstTs ≤ minY ∧
      (∃ lr, leftmostRight c minY = some lr ∧ firstTs < lr) ∧
      (∀ z, tsYear firstTs ≤ z → z < minY →
        ∃ lr, leftmostRight c z = some lr ∧ lr ≤ firstTs) ∧
      r = (if minY ≤ (if lastTs < rb then tsYear lastTs - 1 else tsYear lastTs)
           then .ok (minY, if lastTs < rb then tsYear lastTs - 1 else tsYear lastTs)
           else .error ()) := by
  unfold _set_year_range_from_timestamps at h
  cases hrb : rightBoundary c (tsYear lastTs) with
  | none => rw [hrb] at h; exact absurd h (by simp)
  | some rb =>
    rw [hrb] at h
    simp only [Option.bind_eq_bind, Option.some_bind] at h
    cases hmin : minLoopFuel c firstTs 10000 (tsYear firstTs) with
    | none => rw [hmin] at h; exact absurd h (by simp)
    | some minY =>
      rw [hmin] at h
      simp only [Option.some_bind, Option.some.injEq] at h
      obtain ⟨h1, h2, h3⟩ := minLoopFuel_spec c firstTs 10000 (tsYear firstTs) minY hmin
      refine ⟨rb, minY, rfl, rfl, h1, h2, h3, ?_⟩
      rw [← h]

/-- Witness for `c3_amended`: the calendar `calC9` mapped to data spanning
2021-01-01 .. 2022-02-01 resolves to the single anchor year 2021. -/
theorem c3_amended_witness :
    _set_year_range_from_timestamps calC9 (civilToRd 2021 1 1) (civilToRd 2022 2 1) =
      some (.ok (2021, 2021)) ∧
    (∃ rb minY,
      rightBoundary calC9 (tsYear (civilToRd 2022 2 1)) = some rb ∧
      minLoopFuel calC9 (civilToRd 2021 1 1) 10000 (tsYear (civilToRd 2021 1 1)) = some minY ∧
      tsYear (civilToRd 2021 1 1) ≤ minY ∧
      (∃ lr, leftmostRight calC9 minY = some lr ∧ civilToRd 2021 1 1 < lr) ∧
      (∀ z, tsYear (civilToRd 2021 1 1) ≤ z → z < minY →
        ∃ lr, leftmostRight calC9 z = some lr ∧ lr ≤ civilToRd 2021 1 1) ∧
      (Except.ok (2021, 2021) : Except Unit (Int × Int)) =
        (if minY ≤ (if civilToRd 2022 2 1 < rb
                    then tsYear (civilToRd 2022 2 1) - 1 else tsYear (civilToRd 2022 2 1))
         then .ok (minY, if civilToRd 2022 2 1 < rb
                         then tsYear (civilToRd 2022 2 1) - 1 else tsYear (civilToRd 2022 2 1))
         else .error ())) :=
  ⟨by decide,
   c3_amended calC9 (civilToRd 2021 1 1) (civilToRd 2022 2 1) (.ok (2021, 2021)) (by decide)⟩

/-- Reading a merged dict entry with absent keys as 0 adds the two operands'
readings. -/
theorem mergeField_getD (a b : Option Int) :
    (mergeField a b).getD 0 = a.getD 0 + b.getD 0 := by
  cases a <;> cases b <;> simp [mergeField]

/-- Reading a negated dict entry with absent keys as 0 negates the reading. -/
theorem negPyField_getD (a : Option Int) :
    (negPyField a).getD 0 = -(a.getD 0) := by
  cases a <;> simp [negPyField]

/-- Component view of a merged dict is the component-wise sum. -/
theorem comps_merge (a b : PyDict) :
    comps (.dict (mergePy a b)) =
      ((comps (.dict a)).1 + (comps (.dict b)).1,
       (comps (.dict a)).2.1 + (comps (.dict b)).2.1,
       (comps (.dict a)).2.2 + (comps (.dict b)).2.2) := by
  simp [comps, toDict, mergePy, mergeField_getD]

/-- Component view of an in-place-negated dict is the component-wise negation. -/
theorem comps_negPy (a : PyDict) :
    comps (.dict (negPy a)) =
      (-(comps (.dict a)).1, -(comps (.dict a)).2.1, -(comps (.dict a)).2.2) := by
  simp [comps, toDict, negPy, negPyField_getD]

/-- Parsing the negated frequency string gives the in-place-negated dict. -/
theorem parse_negGap (f : FreqLen) :
    toDict (negGap (.str f)) = negPy (parse_freqstr_to_dateoffset f) := by
  cases f with
  | mk n u => cases u <;> simp [negGap, toDict, parse_freqstr_to_dateoffset, negPy, negPyField]

/-- Normalizing a dict-wrapped gap value is the identity on dicts. -/
theorem toDict_dict (d : PyDict) : toDict (.dict d) = d := rfl

/-- Component view is invariant under re-wrapping the normalized dict. -/
theorem comps_dict_toDict (g : GapVal) : comps (.dict (toDict g)) = comps g := by
  cases g <;> rfl

/-- Parsing a sign-negated frequency string gives the negated single-key dict. -/
theorem parse_negGapD (n : Int) (u : LUnit) :
    parse_freqstr_to_dateoffset { n := -n, u := u } =
      negPy (parse_freqstr_to_dateoffset { n := n, u := u }) := by
  cases u <;> simp [parse_freqstr_to_dateoffset, negPy, negPyField]

/-- Claim C8 (confirmed): for every calendar with at least one target and one
precursor interval and every shift value X (string or dict), applying
`calendar_shifter` with +X and then applying it to the result with -X yields a
calendar whose first-target gap and first-precursor gap are component-wise
(days/weeks/months, absent keys read as 0) equal to the original calendar's.
This holds regardless of the in-place dict mutation: the second application
receives the fresh value -X. -/
theorem c8_shift_roundtrip (cal : CalendarS) (x : GapVal) (c1 c2 : CalendarS)
    (s1 s2 : GapVal)
    (h1 : calendar_shifter cal x = some (c1, s1))
    (h2 : calendar_shifter c1 (negGap x) = some (c2, s2)) :
    (c2.targets.head?.map fun iv => comps iv.gap) =
      (cal.targets.head?.map fun iv => comps iv.gap) ∧
    (c2.precursors.head?.map fun iv => comps iv.gap) =
      (cal.precursors.head?.map fun iv => comps iv.gap) := by
  obtain ⟨ts, ps⟩ := cal
  cases ts with
  | nil => simp [calendar_shifter] at h1
  | cons t0 ts =>
    cases ps with
    | nil => simp [calendar_shifter] at h1
    | cons p0 ps =>
      simp only [calendar_shifter, Option.some.injEq, Prod.mk.injEq] at h1
      obtain ⟨h1a, h1b⟩ := h1
      subst h1a
      subst h1b
      simp only [calendar_shifter, Option.some.injEq, Prod.mk.injEq] at h2
      obtain ⟨h2a, h2b⟩ := h2
      subst h2a
      subst h2b
      simp only [List.head?_cons, Option.map_some', Option.some.injEq]
      cases x with
      | dict d =>
        by_cases ht : t0.role = IvRole.precursor <;>
          by_cases hp : p0.role = IvRole.precursor <;>
            simp only [_gap_shift, negGap, ht, hp, if_true, if_false, reduceIte] <;>
              constructor <;>
                simp only [toDict_dict, comps_merge, comps_negPy, comps_dict_toDict,
                  Prod.ext_iff] <;>
                  refine ⟨by omega, by omega, by omega⟩
      | str f =>
        obtain ⟨n, u⟩ := f
        by_cases ht : t0.role = IvRole.precursor <;>
          by_cases hp : p0.role = IvRole.precursor <;>
            simp only [_gap_shift, negGap, ht, hp, if_true, if_false, reduceIte] <;>
              constructor <;>
                simp only [toDict_dict, comps_merge, comps_negPy, comps_dict_toDict,
                  parse_negGapD, Prod.ext_iff] <;>
                  refine ⟨by omega, by omega, by omega⟩

/-- Witness for `c8_shift_roundtrip`: the +{"days": 7} / -{"days": 7} round
trip on `calC10` restores both first gaps component-wise. -/
theorem c8_roundtrip_witness :
    calendar_shifter calC10 shiftC10 = some (c8Mid, .dict { days := some (-7) }) ∧
    calendar_shifter c8Mid (negGap shiftC10) = some (c8End, .dict { days := some 7 }) ∧
    ((c8End.targets.head?.map fun iv => comps iv.gap) =
       (calC10.targets.head?.map fun iv => comps iv.gap) ∧
     (c8End.precursors.head?.map fun iv => comps iv.gap) =
       (calC10.precursors.head?.map fun iv => comps iv.gap)) :=
  ⟨by decide, by decide,
   c8_shift_roundtrip calC10 shiftC10 c8Mid c8End
     (.dict { days := some (-7) }) (.dict { days := some 7 }) (by decide) (by decide)⟩

/-- A string-valued shift argument comes back unchanged from
`calendar_shifter` (the parse builds a fresh dict, so the in-place negation
never touches the caller's value). -/
theorem calendar_shifter_str_state (cur nxt : CalendarS) (f : FreqLen) (s : GapVal)
    (h : calendar_shifter cur (.str f) = some (nxt, s)) : s = .str f := by
  obtain ⟨ts, ps⟩ := cur
  cases ts with
  | nil => simp [calendar_shifter] at h
  | cons t0 ts =>
    cases ps with
    | nil => simp [calendar_shifter] at h
    | cons p0 ps =>
      simp only [calendar_shifter, _gap_shift, Option.some.injEq, Prod.mk.injEq] at h
      exact h.2.symm

/-- One string-shift step: the successor calendar's first target gap gains
+shift and its first precursor gap gains -shift (component-wise), roles are
preserved, and the interval lists stay nonempty. -/
theorem calendar_shifter_str_step (cur nxt : CalendarS) (f : FreqLen) (s : GapVal)
    (hT : ∀ iv ∈ cur.targets, iv.role = IvRole.target)
    (hP : ∀ iv ∈ cur.precursors, iv.role = IvRole.precursor)
    (h : calendar_shifter cur (.str f) = some (nxt, s)) :
    ((nxt.targets.head?.map fun iv => comps iv.gap) =
       (cur.targets.head?.map fun iv => compsAdd (comps iv.gap) (comps (.str f))) ∧
     (nxt.precursors.head?.map fun iv => comps iv.gap) =
       (cur.precursors.head?.map fun iv => compsAdd (comps iv.gap)
         (compsNeg (comps (.str f))))) ∧
    (∀ iv ∈ nxt.targets, iv.role = IvRole.target) ∧
    (∀ iv ∈ nxt.precursors, iv.role = IvRole.precursor) := by
  obtain ⟨ts, ps⟩ := cur
  cases ts with
  | nil => simp [calendar_shifter] at h
  | cons t0 ts =>
    cases ps with
    | nil => simp [calendar_shifter] at h
    | cons p0 ps =>
      have ht0 : t0.role = IvRole.target := hT t0 (by simp)
      have hp0 : p0.role = IvRole.precursor := hP p0 (by simp)
      simp only [calendar_shifter, _gap_shift, Option.some.injEq, Prod.mk.injEq] at h
      obtain ⟨ha, _⟩ := h
      subst ha
      refine ⟨⟨?_, ?_⟩, ?_, ?_⟩
      · simp only [List.head?_cons, Option.map_some', Option.some.injEq, ht0,
          reduceIte, toDict_dict, comps_merge, comps_dict_toDict, compsAdd]
        rfl
      · simp only [List.head?_cons, Option.map_some', Option.some.injEq, hp0,
          reduceIte, toDict_dict, comps_merge, comps_negPy, comps_dict_toDict,
          compsAdd, compsNeg]
        rfl
      · intro iv hiv
        rcases List.mem_cons.mp hiv with hh | hh
        · subst hh; exact ht0
        · exact hT iv (List.mem_cons_of_mem _ hh)
      · intro iv hiv
        rcases List.mem_cons.mp hiv with hh | hh
        · subst hh; exact hp0
        · exact hP iv (List.mem_cons_of_mem _ hh)

/-- Chained form of `calendar_shifter_str_step` along the `staggered_calendar`
loop: with a string shift, every successive calendar is offset from its
predecessor by the same +shift. -/
theorem staggeredGo_str_chain (f : FreqLen) :
    ∀ (k : Nat) (cur : CalendarS) (rest : List CalendarS),
      (∀ iv ∈ cur.targets, iv.role = IvRole.target) →
      (∀ iv ∈ cur.precursors, iv.role = IvRole.precursor) →
      staggeredGo k cur (.str f) = some rest →
      List.Chain' (fun c cn =>
        (cn.targets.head?.map fun iv => comps iv.gap) =
          (c.targets.head?.map fun iv => compsAdd (comps iv.gap) (comps (.str f))) ∧
        (cn.precursors.head?.map fun iv => comps iv.gap) =
          (c.precursors.head?.map fun iv => compsAdd (comps iv.gap)
            (compsNeg (comps (.str f))))) (cur :: rest) := by
  intro k
  induction k with
  | zero =>
    intro cur rest _ _ h
    simp only [staggeredGo, Option.some.injEq] at h
    subst h
    simp
  | succ j ih =>
    intro cur rest hT hP h
    rw [staggeredGo] at h
    cases hs : calendar_shifter cur (.str f) with
    | none => simp only [hs] at h; exact Option.noConfusion h
    | some pr =>
      obtain ⟨nxt, s2⟩ := pr
      simp only [hs] at h
      have hstate := calendar_shifter_str_state cur nxt f s2 hs
      subst hstate
      obtain ⟨hstep, hT2, hP2⟩ := calendar_shifter_str_step cur nxt f _ hT hP hs
      cases hgo : staggeredGo j nxt (.str f) with
      | none => rw [hgo] at h; exact Option.noConfusion h
      | some rest2 =>
        rw [hgo] at h
        simp only [Option.map_some', Option.some.injEq] at h
        subst h
        exact List.Chain'.cons' (ih nxt rest2 hT2 hP2 hgo)
          (fun y hy => by
            rw [List.head?_cons, Option.mem_def, Option.some.injEq] at hy
            subst hy
            exact hstep)

/-- Claim C10 as amended: `calendar_shifter` never mutates the input calendar
(it operates on a deep copy), and for a string-valued shift the caller's shift
value is returned unchanged and every successive calendar produced by
`staggered_calendar` is offset from its predecessor by the same +shift
(component-wise: first target gap +shift, first precursor gap -shift). For a
dict-valued shift this fails: `_gap_shift` negates the caller's dict in place
when shifting the first precursor (see the counterexample). -/
theorem c10_amended (cal : CalendarS) (f : FreqLen) (n : Int) (l : List CalendarS)
    (hT : ∀ iv ∈ cal.targets, iv.role = IvRole.target)
    (hP : ∀ iv ∈ cal.precursors, iv.role = IvRole.precursor)
    (h : staggered_calendar cal (.str f) n = .ok l) :
    (∀ cur nxt s, calendar_shifter cur (.str f) = some (nxt, s) → s = .str f) ∧
    List.Chain' (fun c cn =>
      (cn.targets.head?.map fun iv => comps iv.gap) =
        (c.targets.head?.map fun iv => compsAdd (comps iv.gap) (comps (.str f))) ∧
      (cn.precursors.head?.map fun iv => comps iv.gap) =
        (c.precursors.head?.map fun iv => compsAdd (comps iv.gap)
          (compsNeg (comps (.str f))))) l := by
  constructor
  · intro cur nxt s hs
    exact calendar_shifter_str_state cur nxt f s hs
  · unfold staggered_calendar at h
    split_ifs at h with hn
    cases hgo : staggeredGo n.toNat cal (.str f) with
    | none => rw [hgo] at h; exact Except.noConfusion h
    | some rest =>
      rw [hgo] at h
      obtain rfl : cal :: rest = l := by simpa using h
      exact staggeredGo_str_chain f n.toNat cal rest hT hP hgo

/-- Witness for `c10_amended`: staggering `calC10` twice by the string shift
"7d" yields calendars offset by +7d/+14d on the first target gap. -/
theorem c10_amended_witness :
    (∀ iv ∈ calC10.targets, iv.role = IvRole.target) ∧
    (∀ iv ∈ calC10.precursors, iv.role = IvRole.precursor) ∧
    staggered_calendar calC10 (.str ⟨7, .d⟩) 2 = .ok [calC10, c8Mid, c10Far] ∧
    ((∀ cur nxt s, calendar_shifter cur (.str ⟨7, .d⟩) = some (nxt, s) →
        s = .str ⟨7, .d⟩) ∧
      List.Chain' (fun c cn =>
        (cn.targets.head?.map fun iv => comps iv.gap) =
          (c.targets.head?.map fun iv =>
            compsAdd (comps iv.gap) (comps (.str ⟨7, .d⟩))) ∧
        (cn.precursors.head?.map fun iv => comps iv.gap) =
          (c.precursors.head?.map fun iv => compsAdd (comps iv.gap)
            (compsNeg (comps (.str ⟨7, .d⟩))))) [calC10, c8Mid, c10Far]) :=
  ⟨by decide, by decide, by decide,
   c10_amended calC10 ⟨7, .d⟩ 2 [calC10, c8Mid, c10Far] (by decide) (by decide) (by decide)⟩

/-- A digit character is not a dash. -/
theorem digit_ne_dash (ch : Char) (h : ch.isDigit = true) : ch ≠ '-' := by
  intro heq
  subst heq
  exact absurd h (by decide)

/-- Splitting at the first dash of `l ++ '-' :: r` when `l` is dash-free. -/
theorem splitOnce_append_nodash (r : List Char) :
    ∀ l : List Char, (∀ x ∈ l, x ≠ '-') →
      splitOnce '-' (l ++ '-' :: r) = some (l, r) := by
  intro l
  induction l with
  | nil => intro _; simp [splitOnce]
  | cons x xs ih =>
    intro hx
    have hxd : x ≠ '-' := hx x (by simp)
    simp only [List.cons_append, splitOnce, if_neg hxd, List.append_eq,
      ih (fun y hy => hx y (List.mem_cons_of_mem _ hy)), Option.map_some']

/-- A successful month-name lookup returns one of the dictionary's values. -/
theorem month_name_lookup_mem :
    ∀ (l : List (String × Nat)) (cs : List Char) (n : Nat),
      month_name_lookup l cs = some n → n ∈ l.map Prod.snd := by
  intro l
  induction l with
  | nil => intro cs n h; simp [month_name_lookup] at h
  | cons kv rest ih =>
    intro cs n h
    rw [month_name_lookup] at h
    split_ifs at h with hk
    · simp only [Option.some.injEq] at h
      subst h
      simp
    · exact List.mem_cons_of_mem _ (ih cs n h)

/-- Parsing the canonical string of a month number (1..12) succeeds and is a
fixed point with format "%m". -/
theorem parse_monthnum :
    ∀ n : Nat, n ≤ 12 → 1 ≤ n →
      _parse_anchor (numToChars n) = .ok (numToChars n, "%m") := by
  decide

/-- Claim C7 (confirmed): for every anchor string the parser accepts, parsing
the canonical anchor string it returned yields that same canonical string and
the same format code again, without error. -/
theorem c7_parse_anchor_idempotent (cs : List Char) (out : List Char × String)
    (h : _parse_anchor cs = .ok out) : _parse_anchor out.1 = .ok out := by
  by_cases h1 : matchMMDD cs
  · -- branch "MM-DD": the canonical output is the input itself
    unfold _parse_anchor at h
    rw [if_pos h1] at h
    cases hsp : splitOnce '-' cs with
    | none => simp only [hsp] at h; exact Except.noConfusion h
    | some p =>
      obtain ⟨a, b⟩ := p
      simp only [hsp] at h
      cases hck : check_month_day (digitsToNat a) (digitsToNat b) with
      | error e => simp only [hck, Except.map] at h; exact Except.noConfusion h
      | ok u =>
        simp only [hck, Except.map, Except.ok.injEq] at h
        obtain rfl : (cs, "%m-%d") = out := h
        show _parse_anchor cs = _
        unfold _parse_anchor
        rw [if_pos h1]
        simp only [hsp, hck, Except.map]
  · by_cases h2 : matchMM cs
    · -- branch "MM": the canonical output is the input itself
      unfold _parse_anchor at h
      rw [if_neg h1, if_pos h2] at h
      cases hck : check_month_day (digitsToNat cs) 1 with
      | error e => simp only [hck, Except.map] at h; exact Except.noConfusion h
      | ok u =>
        simp only [hck, Except.map, Except.ok.injEq] at h
        obtain rfl : (cs, "%m") = out := h
        show _parse_anchor cs = _
        unfold _parse_anchor
        rw [if_neg h1, if_pos h2]
        simp only [hck, Except.map]
    · by_cases h3 : matchWD cs
      · -- branch "Wnn-D": the canonical output is the input itself
        unfold _parse_anchor at h
        rw [if_neg h1, if_neg h2, if_pos h3] at h
        cases hsp : splitOnce '-' (cs.drop 1) with
        | none => simp only [hsp] at h; exact Except.noConfusion h
        | some p =>
          obtain ⟨w, dd⟩ := p
          simp only [hsp] at h
          cases hck : check_week_day (digitsToNat w) (digitsToNat dd) with
          | error e =>
            simp only [hck, Except.map] at h
            exact Except.noConfusion h
          | ok u =>
            simp only [hck, Except.map, Except.ok.injEq] at h
            obtain rfl : (cs, "W%W-%w") = out := h
            show _parse_anchor cs = _
            unfold _parse_anchor
            rw [if_neg h1, if_neg h2, if_pos h3]
            simp only [hsp, hck, Except.map]
      · by_cases h4 : matchW cs
        · -- branch "Wnn": canonical output appends "-1" and reparses as Wnn-D
          unfold _parse_anchor at h
          rw [if_neg h1, if_neg h2, if_neg h3, if_pos h4] at h
          cases hck : check_week_day (digitsToNat (cs.drop 1)) 1 with
          | error e =>
            simp only [hck, Except.map] at h
            exact Except.noConfusion h
          | ok u =>
            simp only [hck, Except.map, Except.ok.injEq] at h
            obtain rfl : (cs ++ ['-', '1'], "W%W-%w") = out := h
            -- decompose cs = 'W' :: rest with rest made of 1-2 digits
            rw [matchW] at h4
            obtain ⟨hhead, hrest⟩ := Bool.and_eq_true_iff.mp h4
            cases cs with
            | nil => simp at hhead
            | cons c0 rest =>
              have hc0 : c0 = 'W' := by simpa using hhead
              subst hc0
              simp only [List.drop_succ_cons, List.drop_zero] at hrest hck
              have hnodash : ∀ x ∈ rest, x ≠ '-' := by
                intro x hx
                have : x.isDigit = true :=
                  List.all_eq_true.mp (Bool.and_eq_true_iff.mp hrest).2 x hx
                exact digit_ne_dash x this
              have hsp2 : splitOnce '-' (rest ++ '-' :: ['1']) = some (rest, ['1']) :=
                splitOnce_append_nodash ['1'] rest hnodash
              have hc' : ('W' :: rest) ++ ['-', '1'] = 'W' :: (rest ++ '-' :: ['1']) := by
                simp
              show _parse_anchor (('W' :: rest) ++ ['-', '1']) = _
              rw [hc']
              have hm1 : matchMMDD ('W' :: (rest ++ '-' :: ['1'])) = false := by
                rw [matchMMDD]
                have : splitOnce '-' ('W' :: (rest ++ '-' :: ['1'])) =
                    some ('W' :: rest, ['1']) := by
                  rw [splitOnce, if_neg (by decide : ¬('W' = '-')), hsp2]
                  rfl
                rw [this]
                simp [isDigits12]
              have hm2 : matchMM ('W' :: (rest ++ '-' :: ['1'])) = false := by
                simp [matchMM, isDigits12]
              have hm3 : matchWD ('W' :: (rest ++ '-' :: ['1'])) = true := by
                rw [matchWD]
                simp only [List.head?_cons, List.drop_succ_cons, List.drop_zero, hsp2]
                simp [hrest]
              unfold _parse_anchor
              rw [if_neg (by simp [hm1]), if_neg (by simp [hm2]), if_pos hm3]
              simp only [List.drop_succ_cons, List.drop_zero, hsp2]
              have hd1 : digitsToNat ['1'] = 1 := by decide
              rw [hd1, hck]
              rfl
        · -- branch month-name: canonical output is the month number string
          unfold _parse_anchor at h
          rw [if_neg h1, if_neg h2, if_neg h3, if_neg h4] at h
          cases hlk : month_name_lookup get_month_names (lowerChars cs) with
          | none =>
            simp only [hlk] at h
            exact Except.noConfusion h
          | some n =>
            simp only [hlk, Except.ok.injEq] at h
            obtain rfl : (numToChars n, "%m") = out := h
            have hmem := month_name_lookup_mem get_month_names (lowerChars cs) n hlk
            have hbound : ∀ x ∈ get_month_names.map Prod.snd, 1 ≤ x ∧ x ≤ 12 := by decide
            obtain ⟨hge, hle⟩ := hbound n hmem
            exact parse_monthnum n hle hge

/-- Witness for `c7_parse_anchor_idempotent`: "W05" canonicalizes to "W05-1"
(weekday defaulted to Monday), and reparsing "W05-1" is a fixed point. -/
theorem c7_idempotent_witness :
    _parse_anchor ("W05".data) = .ok ("W05-1".data, "W%W-%w") ∧
    _parse_anchor ("W05-1".data) = .ok ("W05-1".data, "W%W-%w") :=
  ⟨by decide,
   c7_parse_anchor_idempotent ("W05".data) ("W05-1".data, "W%W-%w") (by decide)⟩

/-- The fuel of `pyRangeDownGo` is irrelevant above `(start - stop).toNat`. -/
theorem pyRangeDownGo_fuel (stop : Int) (skip : Nat) :
    ∀ (f1 f2 : Nat) (start : Int),
      (start - stop).toNat ≤ f1 → (start - stop).toNat ≤ f2 →
      pyRangeDownGo stop skip f1 start = pyRangeDownGo stop skip f2 start := by
  intro f1
  induction f1 with
  | zero =>
    intro f2 start h1 _
    have hst : ¬(start > stop) := by omega
    cases f2 <;> simp [pyRangeDownGo, hst]
  | succ j ih =>
    intro f2 start h1 h2
    cases f2 with
    | zero =>
      have hst : ¬(start > stop) := by omega
      simp [pyRangeDownGo, hst]
    | succ i =>
      simp only [pyRangeDownGo]
      by_cases hgt : start > stop
      · rw [if_pos hgt, if_pos hgt]
        rw [ih i _ (by omega) (by omega)]
      · rw [if_neg hgt, if_neg hgt]

/-- Recurrence of Python's `range(start, stop, -(skip+1))`: emit `start` while
it is strictly above `stop`, then continue `skip+1` lower. -/
theorem pyRangeDown_unfold (start stop : Int) (skip : Nat) :
    pyRangeDown start stop skip =
      if start > stop then
        start :: pyRangeDown (start - ((skip : Int) + 1)) stop skip
      else [] := by
  unfold pyRangeDown
  by_cases hgt : start > stop
  · rw [if_pos hgt]
    have h1 : (start - stop).toNat = ((start - stop).toNat - 1) + 1 := by omega
    rw [h1]
    simp only [pyRangeDownGo, if_pos hgt]
    rw [pyRangeDownGo_fuel stop skip ((start - stop).toNat - 1)
      ((start - ((skip : Int) + 1) - stop).toNat) _ (by omega) (by omega)]
  · rw [if_neg hgt]
    have h0 : (start - stop).toNat = 0 := by omega
    rw [h0]
    rfl

/-- Row count of the realized year range: `floor((start - stop - 1)/(skip+1)) + 1`
rows whenever the range is nonempty. -/
theorem pyRangeDown_length (stop : Int) (skip : Nat) :
    ∀ (n : Nat) (start : Int), (start - stop).toNat = n → stop < start →
      (pyRangeDown start stop skip).length = (start - stop - 1).toNat / (skip + 1) + 1 := by
  intro n
  induction n using Nat.strong_induction_on with
  | _ n ih =>
    intro start hn hlt
    rw [pyRangeDown_unfold, if_pos hlt]
    by_cases h2 : stop < start - ((skip : Int) + 1)
    · have hrec := ih ((start - ((skip : Int) + 1) - stop).toNat) (by omega) _ rfl h2
      rw [List.length_cons, hrec]
      have heq : (start - stop - 1).toNat =
          (start - ((skip : Int) + 1) - stop - 1).toNat + (skip + 1) := by omega
      rw [heq, Nat.add_div_right _ (Nat.succ_pos skip)]
    · rw [pyRangeDown_unfold, if_neg (by omega)]
      simp only [List.length_cons, List.length_nil, Nat.zero_add]
      rw [Nat.div_eq_of_lt (by omega)]

/-- Consecutive realized years differ by exactly `skip + 1`. -/
theorem pyRangeDown_chain (stop : Int) (skip : Nat) :
    ∀ (n : Nat) (start : Int), (start - stop).toNat = n →
      List.Chain' (fun a b => b = a - ((skip : Int) + 1)) (pyRangeDown start stop skip) := by
  intro n
  induction n using Nat.strong_induction_on with
  | _ n ih =>
    intro start hn
    rw [pyRangeDown_unfold]
    by_cases hgt : start > stop
    · rw [if_pos hgt]
      refine List.Chain'.cons' (ih ((start - ((skip : Int) + 1) - stop).toNat) (by omega) _ rfl) ?_
      intro y hy
      rw [pyRangeDown_unfold] at hy
      by_cases h2 : start - ((skip : Int) + 1) > stop
      · rw [if_pos h2] at hy
        simp only [List.head?_cons, Option.mem_def, Option.some.injEq] at hy
        omega
      · rw [if_neg h2] at hy
        simp at hy
    · rw [if_neg hgt]
      exact List.chain'_nil

/-- Insertion sort leaves an already comparator-sorted list unchanged. -/
theorem isortBy_sorted_eq (r : α → α → Bool) :
    ∀ l : List α, List.Chain' (fun a b => r a b = true) l → isortBy r l = l := by
  intro l
  induction l with
  | nil => intro _; rfl
  | cons a l ih =>
    intro h
    rw [isortBy, ih h.tail]
    cases l with
    | nil => rfl
    | cons b bs =>
      have hab : r a b = true := (List.chain'_cons.mp h).1
      rw [insertIn, if_pos hab]

/-- Inserting an element the comparator places after everything appends it. -/
theorem insertIn_append (r : α → α → Bool) (a : α) :
    ∀ l : List α, (∀ y ∈ l, r a y = false) → insertIn r a l = l ++ [a] := by
  intro l
  induction l with
  | nil => intro _; rfl
  | cons b bs ih =>
    intro hy
    rw [insertIn, if_neg (by simp [hy b (by simp)]), ih (fun y h => hy y (by simp [h]))]
    rfl

/-- Every later element of a strictly key-descending chain has a smaller key
than the head. -/
theorem chain_desc_all {β} :
    ∀ (l : List (Int × β)) (a : Int × β),
      List.Chain' (fun p q => q.1 < p.1) (a :: l) → ∀ y ∈ l, y.1 < a.1 := by
  intro l
  induction l with
  | nil => intro a _ y hy; simp at hy
  | cons b bs ih =>
    intro a h y hy
    have hab : b.1 < a.1 := (List.chain'_cons.mp h).1
    rcases List.mem_cons.mp hy with rfl | hmem
    · exact hab
    · exact lt_trans (ih b (List.chain'_cons.mp h).2 y hmem) hab

/-- Insertion sort (ascending by key) of a strictly key-descending list is its
reverse. -/
theorem isortBy_desc_reverse {β} :
    ∀ l : List (Int × β), List.Chain' (fun p q => q.1 < p.1) l →
      isortBy (fun p q => decide (p.1 ≤ q.1)) l = l.reverse := by
  intro l
  induction l with
  | nil => intro _; rfl
  | cons a l ih =>
    intro h
    rw [isortBy, ih h.tail, insertIn_append, List.reverse_cons]
    intro y hy
    have : y.1 < a.1 := chain_desc_all l a h y (List.mem_reverse.mp hy)
    simp
    omega

/-- Labels of the target positions (`i + len ≤ n_targets`): the descending run
`n_targets - i, n_targets - i - 1, ...`. -/
theorem labelRow_map_fst_lt (m : Nat) :
    ∀ (row : List (Int × Int)) (i : Nat), i + row.length ≤ m →
      (labelRow m i row).map Prod.fst = descIntsFrom ((m : Int) - i) row.length := by
  intro row
  induction row with
  | nil => intro i _; rfl
  | cons iv ivs ih =>
    intro i hb
    simp only [labelRow, List.map_cons, List.length_cons, descIntsFrom]
    rw [List.cons.injEq]
    refine ⟨?_, ?_⟩
    · rw [seriesRowLabel, if_pos (by simp at hb; omega)]
    · rw [ih (i + 1) (by simp at hb ⊢; omega)]
      congr 1
      push_cast
      ring

/-- Labels of the precursor positions (`i ≥ n_targets`): the descending run
`n_targets - i - 1, ...`. -/
theorem labelRow_map_fst_ge (m : Nat) :
    ∀ (row : List (Int × Int)) (i : Nat), m ≤ i →
      (labelRow m i row).map Prod.fst = descIntsFrom ((m : Int) - i - 1) row.length := by
  intro row
  induction row with
  | nil => intro i _; rfl
  | cons iv ivs ih =>
    intro i hb
    simp only [labelRow, List.map_cons, List.length_cons, descIntsFrom]
    rw [List.cons.injEq]
    refine ⟨?_, ?_⟩
    · rw [seriesRowLabel, if_neg (by omega)]
    · rw [ih (i + 1) (by omega)]
      congr 1
      push_cast
      ring

/-- Labeling distributes over row concatenation, advancing the position. -/
theorem labelRow_append (m : Nat) :
    ∀ (r1 r2 : List (Int × Int)) (i : Nat),
      labelRow m i (r1 ++ r2) = labelRow m i r1 ++ labelRow m (i + r1.length) r2 := by
  intro r1
  induction r1 with
  | nil => intro r2 i; simp [labelRow]
  | cons iv ivs ih =>
    intro r2 i
    simp only [List.cons_append, labelRow, List.length_cons, List.append_eq,
      ih r2 (i + 1)]
    have : i + 1 + ivs.length = i + (ivs.length + 1) := by omega
    rw [this]

/-- Concatenated target intervals are as many as the blocks. -/
theorem concatTargetsFrom_length :
    ∀ (bs : List IvC) (t0 : Int), (concatTargetsFrom t0 bs).length = bs.length := by
  intro bs
  induction bs with
  | nil => intro t0; rfl
  | cons b bs ih => intro t0; simp [concatTargetsFrom, ih]

/-- Concatenated precursor intervals are as many as the blocks. -/
theorem concatPrecursorsFrom_length :
    ∀ (bs : List IvC) (r0 : Int), (concatPrecursorsFrom r0 bs).length = bs.length := by
  intro bs
  induction bs with
  | nil => intro r0; rfl
  | cons b bs ih => intro r0; simp [concatPrecursorsFrom, ih]

/-- The Series row splits as reversed targets followed by build-order
precursors. -/
theorem _map_year_eq (c : CalendarC) (y : Int) :
    _map_year c y =
      (concatTargetsFrom (_get_anchor c y) c.targets).reverse ++
        concatPrecursorsFrom (_get_anchor c y) c.precursors := by
  unfold _map_year
  rw [List.reverse_append, List.reverse_reverse]

/-- Appending the next integer extends an ascending run. -/
theorem ascIntsFrom_snoc : ∀ (k : Nat) (a : Int),
    ascIntsFrom a (k + 1) = ascIntsFrom a k ++ [a + k] := by
  intro k
  induction k with
  | zero => intro a; simp [ascIntsFrom]
  | succ j ih =>
    intro a
    rw [ascIntsFrom, ih (a + 1), ascIntsFrom]
    have : a + 1 + (j : Int) = a + ((j : Int) + 1) := by ring
    simp [this]

/-- Reversing a descending run yields the matching ascending run. -/
theorem descIntsFrom_reverse : ∀ (k : Nat) (b : Int),
    (descIntsFrom b k).reverse = ascIntsFrom (b - k + 1) k := by
  intro k
  induction k with
  | zero => intro b; rfl
  | succ j ih =>
    intro b
    rw [descIntsFrom, List.reverse_cons, ih (b - 1), ascIntsFrom_snoc]
    congr 1
    · congr 1
      omega
    · simp
      omega

/-- A descending run is a strictly descending chain. -/
theorem descIntsFrom_chain : ∀ (k : Nat) (b : Int),
    List.Chain' (fun x y => y < x) (descIntsFrom b k) := by
  intro k
  induction k with
  | zero => intro b; exact List.chain'_nil
  | succ j ih =>
    intro b
    rw [descIntsFrom]
    refine List.Chain'.cons' (ih (b - 1)) ?_
    intro y hy
    cases j with
    | zero => simp [descIntsFrom] at hy
    | succ i =>
      rw [descIntsFrom] at hy
      simp only [List.head?_cons, Option.mem_def, Option.some.injEq] at hy
      omega

/-- Last element of a nonempty descending run. -/
theorem descIntsFrom_getLast? : ∀ (k : Nat) (b : Int),
    (descIntsFrom b (k + 1)).getLast? = some (b - k) := by
  intro k
  induction k with
  | zero => intro b; simp [descIntsFrom]
  | succ j ih =>
    intro b
    have hexp : descIntsFrom b (j + 1 + 1) = b :: descIntsFrom (b - 1) (j + 1) := rfl
    have hexp2 : descIntsFrom (b - 1) (j + 1) = (b - 1) :: descIntsFrom (b - 1 - 1) j := rfl
    rw [hexp, hexp2, List.getLast?_cons_cons, ← hexp2, ih (b - 1)]
    congr 1
    omega

/-- Column labels of one renamed anchor-year row: the signed i_interval
indices `-n, ..., -1, 1, ..., m`, ascending. -/
theorem rename_intervals_columns (c : CalendarC) (y : Int) :
    (_rename_intervals c.targets.length (_map_year c y)).map Prod.fst =
      ascIntsFrom (-(c.precursors.length : Int)) c.precursors.length ++
        ascIntsFrom 1 c.targets.length := by
  have hlenA : (concatTargetsFrom (_get_anchor c y) c.targets).reverse.length =
      c.targets.length := by
    rw [List.length_reverse, concatTargetsFrom_length]
  have hlenB : (concatPrecursorsFrom (_get_anchor c y) c.precursors).length =
      c.precursors.length := concatPrecursorsFrom_length _ _
  have hsplit : labelRow c.targets.length 0 (_map_year c y) =
      labelRow c.targets.length 0 (concatTargetsFrom (_get_anchor c y) c.targets).reverse ++
      labelRow c.targets.length c.targets.length
        (concatPrecursorsFrom (_get_anchor c y) c.precursors) := by
    rw [_map_year_eq, labelRow_append]
    rw [hlenA, Nat.zero_add]
  have hkeys : (labelRow c.targets.length 0 (_map_year c y)).map Prod.fst =
      descIntsFrom (c.targets.length : Int) c.targets.length ++
      descIntsFrom (-1) c.precursors.length := by
    rw [hsplit, List.map_append]
    rw [labelRow_map_fst_lt c.targets.length _ 0 (by rw [hlenA]; omega)]
    rw [labelRow_map_fst_ge c.targets.length _ c.targets.length (le_refl _)]
    rw [hlenA, hlenB]
    have e1 : (c.targets.length : Int) - (0 : Nat) = (c.targets.length : Int) := by
      simp
    have e2 : (c.targets.length : Int) - c.targets.length - 1 = -1 := by ring
    rw [e1, e2]
  have hchain : List.Chain' (fun p q : Int × (Int × Int) => q.1 < p.1)
      (labelRow c.targets.length 0 (_map_year c y)) := by
    have hck : List.Chain' (fun x y : Int => y < x)
        ((labelRow c.targets.length 0 (_map_year c y)).map Prod.fst) := by
      rw [hkeys]
      rw [List.chain'_append]
      refine ⟨descIntsFrom_chain _ _, descIntsFrom_chain _ _, ?_⟩
      intro x hx z hz
      cases hm : c.targets.length with
      | zero => rw [hm] at hx; simp [descIntsFrom] at hx
      | succ j =>
        rw [hm, descIntsFrom_getLast?] at hx
        cases hn : c.precursors.length with
        | zero => rw [hn] at hz; simp [descIntsFrom] at hz
        | succ i =>
          rw [hn, descIntsFrom] at hz
          simp only [List.head?_cons, Option.mem_def, Option.some.injEq] at hx hz
          omega
    exact (List.chain'_map Prod.fst).mp hck
  unfold _rename_intervals
  rw [isortBy_desc_reverse _ hchain, List.map_reverse, hkeys, List.reverse_append,
    descIntsFrom_reverse, descIntsFrom_reverse]
  have e3 : (-1 : Int) - (c.precursors.length : Int) + 1 = -(c.precursors.length : Int) := by
    ring
  have e4 : (c.targets.length : Int) - (c.targets.length : Int) + 1 = 1 := by ring
  rw [e3, e4]

/-- Realized rows of `get_intervals` under a years mapping: one row per year of
the skip-stepped range, already in descending year order (the final
`sort_index(ascending=False)` is the identity on them). -/
theorem get_intervals_rows (c : CalendarC) (first last : Int) (k : Nat)
    (hk : _get_skip_nyears c = some k) :
    get_intervals c first last =
      some ((pyRangeDown last (first - 1) k).map fun y =>
        (y, _rename_intervals c.targets.length (_map_year c y))) := by
  unfold get_intervals
  rw [hk, Option.map_some']
  congr 1
  apply isortBy_sorted_eq
  refine (List.chain'_map _).mpr ?_
  refine List.Chain'.imp ?_ (pyRangeDown_chain (first - 1) k _ last rfl)
  intro a b hab
  simp only [decide_eq_true_eq]
  omega

/-- Claim C1 (confirmed): for every calendar mapped via `map_years(first, last)`
with `first ≤ last` and at least one interval, and with `_get_skip_nyears`
returning `k` (within fuel), `get_intervals` returns a table with
`floor((last - first)/(k+1)) + 1` rows, rows in strictly descending anchor-year
order, and every row's columns labeled by the signed i_interval indices
`-n, ..., -1, 1, ..., m` in ascending order. -/
theorem c1_get_intervals_shape (c : CalendarC) (first last : Int) (k : Nat)
    (hfl : first ≤ last) (_hne : c.targets ++ c.precursors ≠ [])
    (hk : _get_skip_nyears c = some k) :
    ∃ tbl, get_intervals c first last = some tbl ∧
      tbl.length = (last - first).toNat / (k + 1) + 1 ∧
      List.Chain' (fun p q => q.1 < p.1) tbl ∧
      ∀ row ∈ tbl, row.2.map Prod.fst =
        ascIntsFrom (-(c.precursors.length : Int)) c.precursors.length ++
          ascIntsFrom 1 c.targets.length := by
  refine ⟨_, get_intervals_rows c first last k hk, ?_, ?_, ?_⟩
  · rw [List.length_map]
    have := pyRangeDown_length (first - 1) k _ last rfl (by omega)
    rw [this]
    congr 1
    congr 1
    omega
  · refine (List.chain'_map _).mpr ?_
    refine List.Chain'.imp ?_ (pyRangeDown_chain (first - 1) k _ last rfl)
    intro a b hab
    simpa using (by omega : b < a)
  · intro row hrow
    obtain ⟨y, _, rfl⟩ := List.mem_map.mp hrow
    exact rename_intervals_columns c y

/-- Witness for `c1_get_intervals_shape`: `calC9` mapped over 2020..2022 with
skip 0 yields three rows, years descending, columns labeled [-1, 1]. -/
theorem c1_shape_witness :
    (2020 : Int) ≤ 2022 ∧
    calC9.targets ++ calC9.precursors ≠ [] ∧
    _get_skip_nyears calC9 = some 0 ∧
    (∃ tbl, get_intervals calC9 2020 2022 = some tbl ∧
      tbl.length = ((2022 : Int) - 2020).toNat / (0 + 1) + 1 ∧
      List.Chain' (fun p q => q.1 < p.1) tbl ∧
      ∀ row ∈ tbl, row.2.map Prod.fst =
        ascIntsFrom (-(calC9.precursors.length : Int)) calC9.precursors.length ++
          ascIntsFrom 1 calC9.targets.length) :=
  ⟨by decide, by decide, by decide,
   c1_get_intervals_shape calC9 2020 2022 0 (by decide) (by decide) (by decide)⟩

/-- With no month component, adding an offset adds its day-equivalent. -/
theorem applyOffset_day (t : Int) (o : DOffset) (h : o.months = 0) :
    applyOffset t o = t + dayLen o := by
  rw [applyOffset, h, addMonths, if_pos rfl, dayLen]
  ring

/-- With no month component, subtracting an offset subtracts its
day-equivalent. -/
theorem applyOffsetNeg_day (t : Int) (o : DOffset) (h : o.months = 0) :
    applyOffsetNeg t o = t - dayLen o := by
  rw [applyOffsetNeg, h, neg_zero, addMonths, if_pos rfl, dayLen]
  ring

/-- Day/week blocks with nonnegative gaps and lengths have nonnegative span. -/
theorem sumIvs_nonneg : ∀ bs : List IvC, DayBlocks bs → 0 ≤ sumIvs bs := by
  intro bs
  induction bs with
  | nil => intro _; simp [sumIvs]
  | cons b bs ih =>
    intro h
    obtain ⟨_, _, hg, hl⟩ := h b (by simp)
    have := ih (fun y hy => h y (List.mem_cons_of_mem _ hy))
    rw [sumIvs]
    omega

/-- Every target interval of a day/week calendar lies within
`[start_point, start_point + total_span)`. -/
theorem concatTargetsFrom_bounds :
    ∀ (bs : List IvC) (t0 : Int), DayBlocks bs →
      ∀ p ∈ concatTargetsFrom t0 bs, t0 ≤ p.1 ∧ p.1 ≤ p.2 ∧ p.2 ≤ t0 + sumIvs bs := by
  intro bs
  induction bs with
  | nil => intro t0 _ p hp; simp [concatTargetsFrom] at hp
  | cons b bs ih =>
    intro t0 hday p hp
    obtain ⟨hgm, hlm, hg, hl⟩ := hday b (by simp)
    have htail : DayBlocks bs := fun y hy => hday y (List.mem_cons_of_mem _ hy)
    have hsum := sumIvs_nonneg bs htail
    rw [concatTargetsFrom] at hp
    simp only [applyOffset_day _ _ hgm, applyOffset_day _ _ hlm] at hp
    rcases List.mem_cons.mp hp with rfl | hmem
    · rw [sumIvs]
      refine ⟨by omega, by omega, by omega⟩
    · obtain ⟨ha, hb, hc⟩ := ih (t0 + dayLen b.gap + dayLen b.length) htail p hmem
      rw [sumIvs]
      refine ⟨by omega, hb, by omega⟩

/-- Every precursor interval of a day/week calendar lies within
`(end_point - total_span, end_point]`. -/
theorem concatPrecursorsFrom_bounds :
    ∀ (bs : List IvC) (r0 : Int), DayBlocks bs →
      ∀ p ∈ concatPrecursorsFrom r0 bs, r0 - sumIvs bs ≤ p.1 ∧ p.1 ≤ p.2 ∧ p.2 ≤ r0 := by
  intro bs
  induction bs with
  | nil => intro r0 _ p hp; simp [concatPrecursorsFrom] at hp
  | cons b bs ih =>
    intro r0 hday p hp
    obtain ⟨hgm, hlm, hg, hl⟩ := hday b (by simp)
    have htail : DayBlocks bs := fun y hy => hday y (List.mem_cons_of_mem _ hy)
    have hsum := sumIvs_nonneg bs htail
    rw [concatPrecursorsFrom] at hp
    simp only [applyOffsetNeg_day _ _ hgm, applyOffsetNeg_day _ _ hlm] at hp
    rcases List.mem_cons.mp hp with rfl | hmem
    · rw [sumIvs]
      refine ⟨by omega, by omega, by omega⟩
    · obtain ⟨ha, hb, hc⟩ := ih (r0 - dayLen b.gap - dayLen b.length) htail p hmem
      rw [sumIvs]
      refine ⟨by omega, hb, by omega⟩

/-- Backward fold of day/week blocks subtracts the total span. -/
theorem foldlNeg_day :
    ∀ (bs : List IvC) (s : Int), DayBlocks bs →
      bs.foldl (fun s b => applyOffsetNeg (applyOffsetNeg s b.gap) b.length) s =
        s - sumIvs bs := by
  intro bs
  induction bs with
  | nil => intro s _; simp [sumIvs]
  | cons b bs ih =>
    intro s hday
    obtain ⟨hgm, hlm, _, _⟩ := hday b (by simp)
    rw [List.foldl_cons, applyOffsetNeg_day _ _ hgm, applyOffsetNeg_day _ _ hlm,
      ih _ (fun y hy => hday y (List.mem_cons_of_mem _ hy)), sumIvs]
    ring

/-- Forward fold of day/week blocks adds the total span. -/
theorem foldlPos_day :
    ∀ (bs : List IvC) (s : Int), DayBlocks bs →
      bs.foldl (fun s b => applyOffset (applyOffset s b.gap) b.length) s =
        s + sumIvs bs := by
  intro bs
  induction bs with
  | nil => intro s _; simp [sumIvs]
  | cons b bs ih =>
    intro s hday
    obtain ⟨hgm, hlm, _, _⟩ := hday b (by simp)
    rw [List.foldl_cons, applyOffset_day _ _ hgm, applyOffset_day _ _ hlm,
      ih _ (fun y hy => hday y (List.mem_cons_of_mem _ hy)), sumIvs]
    ring

/-- The skip loop only returns once the previous proto year's target end no
longer passes the current proto year's precursor start. -/
theorem skipLoopFuel_exit (c : CalendarC) (start : Int) :
    ∀ (fuel k0 : Nat) (k : Nat), skipLoopFuel c start fuel k0 = some k →
      prevEndCalendar c k ≤ start := by
  intro fuel
  induction fuel with
  | zero => intro k0 k h; simp [skipLoopFuel] at h
  | succ j ih =>
    intro k0 k h
    rw [skipLoopFuel] at h
    by_cases hgt : prevEndCalendar c k0 > start
    · rw [if_pos hgt] at h
      exact ih (k0 + 1) k h
    · rw [if_neg hgt] at h
      obtain rfl : k0 = k := by simpa using h
      omega

/-- Membership in a Series row is membership in either concatenation. -/
theorem mem_map_year (c : CalendarC) (y : Int) (p : Int × Int) :
    p ∈ _map_year c y ↔
      p ∈ concatTargetsFrom (_get_anchor c y) c.targets ∨
      p ∈ concatPrecursorsFrom (_get_anchor c y) c.precursors := by
  rw [_map_year_eq]
  simp [List.mem_append, List.mem_reverse]

/-- Insertion produces no new elements. -/
theorem mem_insertIn (r : α → α → Bool) (a x : α) :
    ∀ l, x ∈ insertIn r a l → x = a ∨ x ∈ l := by
  intro l
  induction l with
  | nil =>
    intro h
    rw [insertIn] at h
    exact Or.inl (by simpa using h)
  | cons b bs ih =>
    intro h
    rw [insertIn] at h
    by_cases hr : r a b
    · rw [if_pos hr] at h
      rcases List.mem_cons.mp h with rfl | h2
      · exact Or.inl rfl
      · exact Or.inr h2
    · rw [if_neg hr] at h
      rcases List.mem_cons.mp h with rfl | h2
      · exact Or.inr (by simp)
      · rcases ih h2 with rfl | h3
        · exact Or.inl rfl
        · exact Or.inr (by simp [h3])

/-- Sorting produces no new elements. -/
theorem mem_isortBy (r : α → α → Bool) (x : α) :
    ∀ l, x ∈ isortBy r l → x ∈ l := by
  intro l
  induction l with
  | nil => intro h; exact h
  | cons a as ih =>
    intro h
    rw [isortBy] at h
    rcases mem_insertIn r a x _ h with rfl | h2
    · simp
    · simp [ih h2]

/-- Every labeled entry's interval comes from the underlying row. -/
theorem mem_labelRow_snd (m : Nat) :
    ∀ (row : List (Int × Int)) (i : Nat) (p : Int × (Int × Int)),
      p ∈ labelRow m i row → p.2 ∈ row := by
  intro row
  induction row with
  | nil => intro i p h; simp [labelRow] at h
  | cons iv ivs ih =>
    intro i p h
    rw [labelRow] at h
    rcases List.mem_cons.mp h with rfl | h2
    · simp
    · simp [ih (i + 1) p h2]

/-- A chained pair sits at every pair of adjacent positions. -/
theorem chain'_get?_rel {R : α → α → Prop} :
    ∀ l : List α, List.Chain' R l → ∀ (i : Nat) (a b : α),
      l[i]? = some a → l[i + 1]? = some b → R a b := by
  intro l
  induction l with
  | nil => intro _ i a b ha _; simp at ha
  | cons x xs ih =>
    intro h i a b ha hb
    cases i with
    | zero =>
      obtain rfl : x = a := by simpa using ha
      cases xs with
      | nil => simp at hb
      | cons x2 xs2 =>
        obtain rfl : x2 = b := by simpa using hb
        exact (List.chain'_cons.mp h).1
    | succ j =>
      exact ih h.tail j a b (by simpa using ha) (by simpa using hb)

/-- Claim C2 as amended: for a mapped `allow_overlap=False` calendar whose
offsets are day/week-valued with nonnegative gaps and lengths, any two
consecutively realized anchor years of `get_intervals` have disjoint interval
sets PROVIDED the day span between their two anchors is at least the span of
the synthetic proto pair `1999-skip → 2000` used by `_get_skip_nyears` (the
counterexample shows this proviso is necessary: a leap-year proto pair spans
366 days while a realized pair may span only 365, so the proto-derived skip
can under-separate consecutive years). -/
theorem c2_amended (c : CalendarC) (first last : Int) (k : Nat)
    (hday : DayBlocks (c.targets ++ c.precursors))
    (hov : c.allowOverlap = false)
    (hk : _get_skip_nyears c = some k)
    (tbl : List (Int × List (Int × (Int × Int))))
    (htbl : get_intervals c first last = some tbl)
    (i : Nat) (r1 r2 : Int × List (Int × (Int × Int)))
    (h1 : tbl[i]? = some r1) (h2 : tbl[i + 1]? = some r2)
    (hdist : _get_anchor c 2000 - _get_anchor c (1999 - (k : Int)) ≤
      _get_anchor c r1.1 - _get_anchor c r2.1) :
    ∀ p ∈ r2.2, ∀ q ∈ r1.2, ∀ t : Int,
      ¬(p.2.1 ≤ t ∧ t < p.2.2 ∧ q.2.1 ≤ t ∧ t < q.2.2) := by
  have hdayT : DayBlocks c.targets :=
    fun b hb => hday b (List.mem_append.mpr (Or.inl hb))
  have hdayP : DayBlocks c.precursors :=
    fun b hb => hday b (List.mem_append.mpr (Or.inr hb))
  -- identify the two rows
  rw [get_intervals_rows c first last k hk, Option.some.injEq] at htbl
  subst htbl
  rw [List.getElem?_map] at h1 h2
  cases hy1 : (pyRangeDown last (first - 1) k)[i]? with
  | none => rw [hy1] at h1; exact absurd h1 (by simp)
  | some y1 =>
  cases hy2 : (pyRangeDown last (first - 1) k)[i + 1]? with
  | none => rw [hy2] at h2; exact absurd h2 (by simp)
  | some y2 =>
  rw [hy1] at h1
  rw [hy2] at h2
  obtain rfl : (y1, _rename_intervals c.targets.length (_map_year c y1)) = r1 := by
    simpa using h1
  obtain rfl : (y2, _rename_intervals c.targets.length (_map_year c y2)) = r2 := by
    simpa using h2
  have hstep : y2 = y1 - ((k : Int) + 1) :=
    chain'_get?_rel _ (pyRangeDown_chain (first - 1) k _ last rfl) i y1 y2 hy1 hy2
  -- the skip-loop exit inequality, in day arithmetic
  have hexit : _get_anchor c (1999 - (k : Int)) + sumIvs c.targets ≤
      _get_anchor c 2000 - sumIvs c.precursors := by
    have hunfold : skipLoopFuel c (startCalendar c) 10000 0 = some k := by
      rw [_get_skip_nyears, hov] at hk
      simpa using hk
    have := skipLoopFuel_exit c (startCalendar c) 10000 0 k hunfold
    rw [prevEndCalendar, startCalendar, foldlPos_day _ _ hdayT,
      foldlNeg_day _ _ hdayP] at this
    have harg : (2000 : Int) - 1 - (k : Int) = 1999 - (k : Int) := by ring
    rw [harg] at this
    omega
  have hTnn := sumIvs_nonneg _ hdayT
  have hPnn := sumIvs_nonneg _ hdayP
  -- bound the two intervals
  intro p hp q hq t hcontra
  have hpmem : p.2 ∈ _map_year c y2 :=
    mem_labelRow_snd c.targets.length _ 0 p (mem_isortBy _ p _ hp)
  have hqmem : q.2 ∈ _map_year c y1 :=
    mem_labelRow_snd c.targets.length _ 0 q (mem_isortBy _ q _ hq)
  have hpright : p.2.2 ≤ _get_anchor c y2 + sumIvs c.targets := by
    rcases (mem_map_year c y2 p.2).mp hpmem with hmt | hmp
    · exact (concatTargetsFrom_bounds _ _ hdayT p.2 hmt).2.2
    · have := (concatPrecursorsFrom_bounds _ _ hdayP p.2 hmp).2.2
      omega
  have hqleft : _get_anchor c y1 - sumIvs c.precursors ≤ q.2.1 := by
    rcases (mem_map_year c y1 q.2).mp hqmem with hmt | hmp
    · have := (concatTargetsFrom_bounds _ _ hdayT q.2 hmt).1
      omega
    · exact (concatPrecursorsFrom_bounds _ _ hdayP q.2 hmp).1
  -- combine: the earlier year ends before the later year begins
  have hkey : _get_anchor c y2 + sumIvs c.targets ≤
      _get_anchor c y1 - sumIvs c.precursors := by
    simp only at hdist
    omega
  omega

/-- Witness for `c2_amended`: the 2003/2004 pair of `calC2X` spans 366 anchor
days (2004 is a leap year), matching the proto pair, so the consecutive rows
are disjoint. -/
theorem c2_amended_witness :
    DayBlocks (calC2X.targets ++ calC2X.precursors) ∧
    calC2X.allowOverlap = false ∧
    _get_skip_nyears calC2X = some 0 ∧
    get_intervals calC2X 2003 2004 = some c2wTbl ∧
    c2wTbl[0]? = some c2wRow1 ∧
    c2wTbl[1]? = some c2wRow2 ∧
    (_get_anchor calC2X 2000 - _get_anchor calC2X (1999 - ((0 : Nat) : Int)) ≤
      _get_anchor calC2X c2wRow1.1 - _get_anchor calC2X c2wRow2.1) ∧
    (∀ p ∈ c2wRow2.2, ∀ q ∈ c2wRow1.2, ∀ t : Int,
      ¬(p.2.1 ≤ t ∧ t < p.2.2 ∧ q.2.1 ≤ t ∧ t < q.2.2)) :=
  ⟨by decide, by decide, by decide, by decide, by decide, by decide, by decide,
   c2_amended calC2X 2003 2004 0 (by decide) (by decide) (by decide)
     c2wTbl (by decide) 0 c2wRow1 c2wRow2 (by decide) (by decide) (by decide)⟩

